import Mathlib

/-!
Verification development for the transcript summarization pipeline of
`video_web_app_v3` (the chunking / batch-processing / fallback layer under
`scripts/transcript_summarizer/`).

Python strings are modelled as `List Char` (`Str`), except in the chunker
`create_overlapping_chunks`, whose algorithm is index-based (`rfind` with
bounds, slicing); there text is modelled as a length plus an indexing
function (`PyStr`).  Remote LLM calls are modelled as oracles of type
`Except String _`: `.ok` is a normal response, `.error` models the call
raising an exception.  `asyncio.gather` returns results in the order the
tasks were passed (a documented guarantee), so fan-out/fan-in is modelled
as a map over the chunk list.
-/

namespace VideoApp

abbrev Str := List Char

/-- Conversion from a Lean string literal to the `List Char` model. -/
def S (s : String) : Str := s.data

/-- The whitespace characters of Python's `str.strip()` / `str.split()`
(ASCII part; transcripts and titles in the claims are ASCII). -/
def isPyWs (c : Char) : Bool :=
  c == ' ' || c == '\t' || c == '\n' || c == '\r' ||
  c == Char.ofNat 11 || c == Char.ofNat 12

/-- `startsWithL pat s` : does `s` begin with `pat`?  (Python `str.startswith`.) -/
def startsWithL : Str → Str → Bool
  | [], _ => true
  | _ :: _, [] => false
  | p :: ps, c :: cs => p == c && startsWithL ps cs

/-- `containsSub hay needle` : Python's substring test `needle in hay`. -/
def containsSub : Str → Str → Bool
  | [], needle => needle.isEmpty
  | hay@(_ :: rest), needle => startsWithL needle hay || containsSub rest needle

/-- Python `str.strip()`: drop leading and trailing whitespace. -/
def stripS (s : Str) : Str :=
  ((s.dropWhile isPyWs).reverse.dropWhile isPyWs).reverse

/-- Helper for `splitWs`: accumulates the current word (reversed). -/
def splitWsAux (cur : Str) : Str → List Str
  | [] => if cur.isEmpty then [] else [cur.reverse]
  | c :: rest =>
    if isPyWs c then
      if cur.isEmpty then splitWsAux [] rest else cur.reverse :: splitWsAux [] rest
    else splitWsAux (c :: cur) rest

/-- Python `str.split()` with no argument: split on whitespace runs,
dropping empty fields. -/
def splitWs (s : Str) : List Str := splitWsAux [] s

/-- Python `len(s.split())`, the word count used by the fallback summaries. -/
def wordCount (s : Str) : Nat := (splitWs s).length

/-- Decimal rendering of a number, as Python string interpolation does. -/
def natStr (n : Nat) : Str := (toString n).data

/-- Python `str.lower()` (ASCII part). -/
def lowerS (s : Str) : Str := s.map Char.toLower

/-- Python `sep.join(parts)`. -/
def joinWith (sep : Str) : List Str → Str
  | [] => []
  | [x] => x
  | x :: xs => x ++ sep ++ joinWith sep xs

/-- Truthiness of an optional string (`None` and `""` are falsy in Python). -/
def truthyS : Option Str → Bool
  | none => false
  | some l => !l.isEmpty

/-- `\w` of Python's `re` module (ASCII part): letters, digits, underscore. -/
def isWordChar (c : Char) : Bool := c.isAlphanum || c == '_'

/-- Boundary test used by `wordMatch`: the position before/after a match must
not hold a word character. -/
def boundaryOk : Option Char → Bool
  | none => true
  | some c => !isWordChar c

/-- Helper for `wordMatch`: scan `hay` carrying the previous character. -/
def wordMatchAux (kw : Str) : Option Char → Str → Bool
  | _, [] => false
  | prev, hay@(c :: rest) =>
    (boundaryOk prev && startsWithL kw hay &&
      boundaryOk ((hay.drop kw.length).head?)) ||
    wordMatchAux kw (some c) rest

/-- Python `re.search(r'\b' + re.escape(kw) + r'\b', hay)` for a non-empty
single-word keyword `kw`: `kw` occurs in `hay` delimited by non-word
characters (or the ends of `hay`). -/
def wordMatch (hay kw : Str) : Bool := wordMatchAux kw none hay

/-! ## `utils/batch_processor.py` -/

/-- Index (relative to the slice) of the last `' '` in a slice, if any:
Python `text.rfind(' ', start, end)` with the result made relative to
`start` (`none` models the return value `-1`). -/
def lastSpaceIdx (l : Str) : Option Nat :=
  go 0 none l
where
  go : Nat → Option Nat → Str → Option Nat
    | _, acc, [] => acc
    | i, acc, c :: rest => go (i + 1) (if c == ' ' then some i else acc) rest

/-- One iteration of the `split_text_into_chunks` loop, starting at absolute
position `start`: returns the produced chunk and the next start position.
`end = start + chunk_size`; if `end < len(text)` the cut is moved back to the
last space, provided that space lies within the final 100 characters of the
chunk (`last_space > start + chunk_size - 100`, computed over `int`, hence
the `Int` cast); the chunk is the slice `text[start:end]` and the next start
is `end - overlap`. -/
def splitStep (text : Str) (chunk_size overlap start : Nat) : Str × Nat :=
  let slice := (text.drop start).take chunk_size
  let endRel : Nat :=
    if start + chunk_size < text.length then
      match lastSpaceIdx slice with
      | some i =>
        if (start + i : Int) > (start : Int) + (chunk_size : Int) - 100 then i
        else chunk_size
      | none => chunk_size
    else chunk_size
  (slice.take endRel, start + endRel - overlap)

/-- Fuel-driven loop of `split_text_into_chunks` (the source's `while` loop;
`none` models a run that does not terminate within `fuel`). -/
def splitLoop (text : Str) (chunk_size overlap : Nat) :
    Nat → Nat → Option (List Str)
  | _, 0 => none
  | start, fuel + 1 =>
    if start < text.length then
      let (chunk, start') := splitStep text chunk_size overlap start
      match splitLoop text chunk_size overlap start' fuel with
      | some rest => some (chunk :: rest)
      | none => none
    else some []

/-- `split_text_into_chunks(text, chunk_size=2500, overlap=250)`. -/
def split_text_into_chunks (text : Str) (chunk_size overlap fuel : Nat) :
    Option (List Str) :=
  splitLoop text chunk_size overlap 0 fuel

/-- One entry of the list returned by `process_in_batches`.  On a task that
raised, the source appends the dict
`{'result': chunks[i], 'chunk_idx': i+1, 'success': False, 'error': ...}`;
on a task that returned normally it appends the processor's raw return value
unchanged (of type `α`). -/
inductive BatchEntry (α : Type) where
  | ok (value : α)
  | failed (result : Str) (chunk_idx : Nat) (error : String)
deriving DecidableEq, Repr

/-- The `success` field of a batch entry, as Python dict access would see it:
a `failed` entry always carries `success=False`; an `ok` entry carries
whatever field the processor's own return value exposes (`field`), which may
be absent (`none`). -/
def BatchEntry.successField {α : Type} (field : α → Option Bool) :
    BatchEntry α → Option Bool
  | .ok v => field v
  | .failed _ _ _ => some false

/-- The `chunk_idx` field of a batch entry, as Python dict access would see
it (same convention as `successField`). -/
def BatchEntry.chunkIdxField {α : Type} (field : α → Option Nat) :
    BatchEntry α → Option Nat
  | .ok v => field v
  | .failed _ i _ => some i

/-- The fan-out/fan-in core of `process_in_batches` on an already-split chunk
list: one task per chunk calling `proc(chunk, i+1, len(chunks))`;
`asyncio.gather(..., return_exceptions=True)` returns the outcomes in task
order, and the result loop wraps each raised exception in a `failed` dict
carrying the original chunk text, leaving normal returns untouched. -/
def gatherBatch {α : Type} (chunks : List Str)
    (proc : Str → Nat → Nat → Except String α) : List (BatchEntry α) :=
  (List.range chunks.length).map fun i =>
    match proc (chunks.getD i []) (i + 1) chunks.length with
    | .ok v => .ok v
    | .error e => .failed (chunks.getD i []) (i + 1) e

/-- `process_in_batches(text, processor_fn, chunk_size, overlap)`. -/
def process_in_batches {α : Type} (text : Str)
    (proc : Str → Nat → Nat → Except String α)
    (chunk_size overlap fuel : Nat) : Option (List (BatchEntry α)) :=
  (split_text_into_chunks text chunk_size overlap fuel).map
    fun chunks => gatherBatch chunks proc

/-- The tagged dict produced by the module's own `process_chunk` wrapper:
`{'result': ..., 'chunk_idx': ..., 'success': ..., 'error': ...}`, where
`result` is the processor's value on success (`Sum.inl`) or the original
chunk text on failure (`Sum.inr`). -/
structure TaggedChunkResult (α : Type) where
  result : Sum α Str
  chunk_idx : Nat
  success : Bool
  error : Option String
deriving DecidableEq, Repr

/-- `process_chunk(chunk, processor_fn, chunk_idx, total_chunks)`. -/
def process_chunk {α : Type} (proc : Str → Nat → Nat → Except String α)
    (chunk : Str) (chunk_idx total_chunks : Nat) : TaggedChunkResult α :=
  match proc chunk chunk_idx total_chunks with
  | .ok r => ⟨.inl r, chunk_idx, true, none⟩
  | .error e => ⟨.inr chunk, chunk_idx, false, some e⟩

/-! ## `utils/correction.py` -/

/-- The dict returned by `fix_transcript_chunk`
(`TranscriptChunk` pydantic schema): it has exactly the keys
`orig_transcript` and `fixed_transcript` — in particular no `success` and no
`chunk_idx` key. -/
structure CorrectionResult where
  orig_transcript : Str
  fixed_transcript : Str
deriving DecidableEq, Repr

/-- The correction dict carries no `success` key. -/
def CorrectionResult.successField : CorrectionResult → Option Bool :=
  fun _ => none

/-- The correction dict carries no `chunk_idx` key. -/
def CorrectionResult.chunkIdxField : CorrectionResult → Option Nat :=
  fun _ => none

/-- `fix_transcript_chunk(chunk, chunk_idx, total_chunks, llm, video_title)`:
the remote call is the oracle `agentResp` (one per chunk); on success the
agent's structured response is returned, on any exception the except branch
returns `{'orig_transcript': chunk, 'fixed_transcript': chunk}` — the chunk
verbatim.  The function itself never raises. -/
def fix_transcript_chunk (chunk : Str) (_chunk_idx _total_chunks : Nat)
    (agentResp : Except String CorrectionResult) : CorrectionResult :=
  match agentResp with
  | .ok r => r
  | .error _ => ⟨chunk, chunk⟩

/-- The combining stage of `correct_transcript_batched`:
`sorted(results, key=lambda x: x['chunk_idx'])` evaluates `x['chunk_idx']`
on every element, so it raises `KeyError` as soon as some element lacks that
key; otherwise the success/`result`/`fixed_transcript` filter runs and the
parts are joined with `' '`. -/
def combineCorrectionResults (results : List (BatchEntry CorrectionResult)) :
    Except String Str :=
  if results.all fun e => (e.chunkIdxField CorrectionResult.chunkIdxField).isSome
  then
    .ok (joinWith (S " ")
      (results.filterMap fun e =>
        if (e.successField CorrectionResult.successField).getD false then
          match e with
          | .ok cr => some cr.fixed_transcript
          | .failed _ _ _ => none
        else none))
  else .error "KeyError: chunk_idx"

/-- `correct_transcript_batched(transcript_text, llm, video_title,
chunk_size=2500, overlap=250)`: split, process in parallel (the per-chunk
wrapper `process_chunk_wrapper` delegates to `fix_transcript_chunk`, which
never raises), then combine. -/
def correct_transcript_batched (transcript_text : Str)
    (corrOracle : Nat → Except String CorrectionResult)
    (chunk_size overlap fuel : Nat) : Option (Except String Str) :=
  (process_in_batches transcript_text
      (fun c i t => .ok (fix_transcript_chunk c i t (corrOracle i)))
      chunk_size overlap fuel).map combineCorrectionResults

/-- `correct_transcript_async(transcript_text, video_title)` of
`summarizer.py`: empty input is returned as is; transcripts over 3000
characters go through `correct_transcript_batched`; shorter ones through a
single-pass agent call (`singleOracle`).  Any exception in the try block is
caught and the original transcript is returned. -/
def correct_transcript_async (transcript_text : Str)
    (corrOracle : Nat → Except String CorrectionResult)
    (singleOracle : Except String Str) (fuel : Nat) : Option Str :=
  if transcript_text.isEmpty then some transcript_text
  else if transcript_text.length > 3000 then
    (correct_transcript_batched transcript_text corrOracle 2500 250 fuel).map
      fun r => match r with
        | .ok s => s
        | .error _ => transcript_text
  else
    some (match singleOracle with
      | .ok s => s
      | .error _ => transcript_text)

/-- The combining `correct_transcript_batched` was written for: results that
do carry the batch metadata, as produced by the module's own `process_chunk`
wrapper (`batch_processor.py` lines 56-84).  Already in chunk-index order;
entries with `success=True` contribute their `fixed_transcript`, joined with
`' '`. -/
def correct_transcript_batched_via_process_chunk (transcript_text : Str)
    (corrOracle : Nat → Except String CorrectionResult)
    (chunk_size overlap fuel : Nat) : Option Str :=
  (split_text_into_chunks transcript_text chunk_size overlap fuel).map
    fun chunks =>
      let results := (List.range chunks.length).map fun i =>
        process_chunk
          (fun c j t => .ok (fix_transcript_chunk c j t (corrOracle j)))
          (chunks.getD i []) (i + 1) chunks.length
      joinWith (S " ")
        ((results.filter fun r => r.success).filterMap
          fun r => match r.result with
            | .inl cr => some cr.fixed_transcript
            | .inr _ => none)

/-! ## `summarizer.py` -/

/-- `TranscriptSummarizer._create_fallback_chunk_summary(chunk_text,
chunk_num)`: a preview of the chunk's first `min(150, len)` characters
(stripped, with `...` appended when the chunk is longer) plus the chunk's
word count.  The body is pure string work, so the outer `try` never fires
and the function is total. -/
def create_fallback_chunk_summary (chunk_text : Str) (chunk_num : Nat) : Str :=
  let preview_length := min 150 chunk_text.length
  let preview := stripS (chunk_text.take preview_length)
  let preview :=
    if chunk_text.length > preview_length then preview ++ S "..." else preview
  let word_count := wordCount chunk_text
  S "**Chunk " ++ natStr chunk_num ++ S " - Fallback Summary**\n\n" ++
  S "This section contains approximately " ++ natStr word_count ++
  S " words.\n\n" ++
  S "Preview: " ++ preview ++ S "\n\n" ++
  S "[Full AI summary unavailable - using basic extractive summary instead]"

/-- `TranscriptSummarizer.summarize_chunk_async(chunk_text, video_title,
chunk_idx, total_chunks)`: the whole body (prompt formatting plus the
`chunk_agent.arun` remote call, here the oracle `remote`) sits inside a
`try` whose `except Exception` returns the marker
`"[Chunk {chunk_idx+1} summary unavailable due to error]"`.  The function
therefore never raises: it is total. -/
def summarize_chunk_async (remote : Except String Str)
    (_chunk_text _video_title : Str) (chunk_idx _total_chunks : Nat) : Str :=
  match remote with
  | .ok content => content
  | .error _ =>
    S "[Chunk " ++ natStr (chunk_idx + 1) ++
    S " summary unavailable due to error]"

/-- The bounded-retry loop of `process_single_chunk`: attempt `k` runs the
`try` body (`attempt k`); on an exception the loop retries while
`k + 1 ≤ max_retries` and otherwise returns `fallback`.  `fuel` bounds the
loop (`max_retries + 1` iterations suffice). -/
def retryWithFallback (attempt : Nat → Except String Str)
    (max_retries : Nat) (fallback : Str) : Nat → Nat → Str
  | _, 0 => fallback
  | k, fuel + 1 =>
    match attempt k with
    | .ok s => s
    | .error _ =>
      if k + 1 ≤ max_retries then
        retryWithFallback attempt max_retries fallback (k + 1) fuel
      else fallback

/-- `process_single_chunk(chunk, chunk_idx)` (the inner function of
`_process_chunks_in_parallel`): retries up to `max_retries = 2` on any
exception from the awaited call and falls back to
`_create_fallback_chunk_summary` after the last failure.  The only awaited
call in the `try` body is `summarize_chunk_async`, whose own blanket
`except` makes it total — hence the body is modelled as `Except.ok` of its
result, with `remote k` the chunk agent's response on attempt `k`. -/
def process_single_chunk (remote : Nat → Except String Str)
    (chunk video_title : Str) (chunk_idx total_chunks : Nat) : Str :=
  retryWithFallback
    (fun k => Except.ok
      (summarize_chunk_async (remote k) chunk video_title chunk_idx
        total_chunks))
    2 (create_fallback_chunk_summary chunk (chunk_idx + 1)) 0 3

/-- `_process_chunks_in_parallel(chunks, video_title, ...)`: one task per
chunk (started in index order, with a rate-shaping delay), gathered with
`asyncio.gather(*tasks)`, which returns the results in task order.
`remote i k` is the chunk agent's response for chunk `i` on attempt `k`. -/
def process_chunks_in_parallel (chunks : List Str) (video_title : Str)
    (remote : Nat → Nat → Except String Str) : List Str :=
  chunks.enum.map fun p =>
    process_single_chunk (remote p.1) p.2 video_title p.1 chunks.length

/-- `generate_basic_summary(transcript_text, video_title)` of
`utils/text_processing.py`: truncate to 100000 characters, drop NUL
characters, show the first `min(1000, len)` characters (plus `...` when
longer) under the title, and append the word count.  The source file stores
the camera emoji mojibake-encoded (`ðŸŽ¬`), reproduced here verbatim. -/
def generate_basic_summary (transcript_text video_title : Str) : Str :=
  let t :=
    if transcript_text.length > 100000 then transcript_text.take 100000
    else transcript_text
  let t := t.filter fun c => c ≠ Char.ofNat 0
  let preview_length := min 1000 t.length
  let summary := S "ðŸŽ¬ " ++ video_title ++ S "\n\n**Basic Summary**\n\n" ++
    t.take preview_length
  let summary := if t.length > preview_length then summary ++ S "..."
    else summary
  summary ++ S "\n\n*Transcript contains approximately " ++
    natStr (wordCount t) ++ S " words.*"

/-- The failed-chunk test of `create_comprehensive_summary_async`:
`summary.startswith("[") and "unavailable due to" in summary`. -/
def isFailedMarker (s : Str) : Bool :=
  startsWithL (S "[") s && containsSub s (S "unavailable due to")

/-- The `try` body of `create_comprehensive_summary_async` up to its first
remote call: partition the chunk summaries, raise
`ValueError("No valid chunk summaries available for comprehensive summary")`
when no valid summary remains, otherwise join the valid summaries with
`\n---BREAK---\n` and hand them to the rest of the body (genre detection,
template selection, the comprehensive agent call and the prettify pass),
modelled by the oracle `rest`; an `.error` of `rest` models any exception
raised there. -/
def create_comprehensive_summary_inner (chunk_summaries : List Str)
    (rest : Str → Except String Str) : Except String Str :=
  let valid := chunk_summaries.filter fun s => !(isFailedMarker s)
  if valid.isEmpty then
    .error "No valid chunk summaries available for comprehensive summary"
  else rest (joinWith (S "\n---BREAK---\n") valid)

/-- The `except` handler of `create_comprehensive_summary_async`: re-filter
the valid summaries; if any exist, return the emergency fallback that
concatenates each of them (`Part {i+1} of {len(chunk_summaries)}`) — note:
all of them, with no cap; otherwise fall back to
`generate_basic_summary(transcript_text[:10000], video_title)`. -/
def create_comprehensive_summary_async (chunk_summaries : List Str)
    (video_title transcript_text : Str)
    (rest : Str → Except String Str) : Str :=
  match create_comprehensive_summary_inner chunk_summaries rest with
  | .ok s => s
  | .error _ =>
    let valid_fallback := chunk_summaries.filter fun s => !(isFailedMarker s)
    if !valid_fallback.isEmpty then
      S "🎬 **" ++ video_title ++
      S "**\n\n**Emergency Fallback Summary**\n\nThe AI was unable to create a unified summary, so here are the individual section summaries:\n\n" ++
      joinWith (S "\n\n")
        (valid_fallback.enum.map fun p =>
          S "🎬 **Part " ++ natStr (p.1 + 1) ++ S " of " ++
          natStr chunk_summaries.length ++ S "**\n\n" ++ p.2)
    else generate_basic_summary (transcript_text.take 10000) video_title

/-! ## `utils/text_processing.py`: `create_overlapping_chunks`

This chunker accesses the text only through indexed operations —
`text.rfind('. ', start, end)`, `text.rfind(' ', start, end)`,
`text[start:end]`, `len(text)` — so the text is modelled as its length plus
an indexing function.  Slice bounds clamp to the length, as in Python. -/

/-- A Python string as its length and indexing function (characters at
indices `≥ len` are never consulted). -/
structure PyStr where
  len : Nat
  chr : Nat → Char

/-- Highest index `i` with `lo ≤ i < lo + n` and `pred i = true`. -/
def scanDown (pred : Nat → Bool) (lo : Nat) : Nat → Option Nat
  | 0 => none
  | n + 1 => if pred (lo + n) then some (lo + n) else scanDown pred lo n

/-- Lowest index `i` with `lo ≤ i < lo + n` and `pred i = true`. -/
def scanUp (pred : Nat → Bool) : Nat → Nat → Option Nat
  | _, 0 => none
  | lo, n + 1 => if pred lo then some lo else scanUp pred (lo + 1) n

/-- Python `text.rfind('. ', start, end)`: the highest `p` with the
two-character pattern inside `text[start:end]` (`none` models `-1`). -/
def rfindPeriodSpace (t : PyStr) (s e : Nat) : Option Nat :=
  scanDown (fun p => t.chr p == '.' && t.chr (p + 1) == ' ') s
    (min e t.len - 1 - s)

/-- Python `text.rfind(' ', start, end)`. -/
def rfindSpace (t : PyStr) (s e : Nat) : Option Nat :=
  scanDown (fun p => t.chr p == ' ') s (min e t.len - s)

/-- The word-boundary half of the boundary search: `end = last_space` when
the last space lies past the chunk midpoint (`last_space > start +
chunk_size // 2`), else `end` unchanged; Python's `-1` (absent) compares
below the midpoint, folding into the unchanged branch. -/
def snapSpace (t : PyStr) (chunk_size s e : Nat) : Nat :=
  match rfindSpace t s e with
  | some q => if q > s + chunk_size / 2 then q else e
  | none => e

/-- The boundary search of `create_overlapping_chunks` (executed only when
`end < len(text)`): prefer a sentence break `'. '` past the midpoint
(`end = period_pos + 1`, keeping the period), else fall back to the word
boundary. -/
def snapEnd (t : PyStr) (chunk_size s e : Nat) : Nat :=
  match rfindPeriodSpace t s e with
  | some p =>
    if p > s + chunk_size / 2 then p + 1 else snapSpace t chunk_size s e
  | none => snapSpace t chunk_size s e

/-- First index in `[lo, hi)` holding a non-whitespace character: the start
of `text[lo:hi].strip()`. -/
def firstNonWs (t : PyStr) (lo hi : Nat) : Option Nat :=
  scanUp (fun p => !isPyWs (t.chr p)) lo (hi - lo)

/-- Last index in `[lo, hi)` holding a non-whitespace character: the end of
`text[lo:hi].strip()` (exclusive, after `+ 1`). -/
def lastNonWs (t : PyStr) (lo hi : Nat) : Option Nat :=
  scanDown (fun p => !isPyWs (t.chr p)) lo (hi - lo)

/-- One chunk appended by `create_overlapping_chunks`: `rs/re` are the
requested slice bounds `[start, end)` (`re` may exceed the text length; the
slice clamps), `ss/se` bound the chunk's characters after `.strip()`, so the
appended chunk string is `text[ss:se]` with length `se - ss`. -/
structure ChunkRec where
  rs : Nat
  re : Nat
  ss : Nat
  se : Nat
deriving DecidableEq, Repr

/-- Loop state of `create_overlapping_chunks`: current start position, the
chunks appended so far (`chunk_count = recs.length`, since the counter is
incremented exactly when a chunk is appended), and the considered ranges
whose stripped text was empty and which were therefore skipped
(`if chunk:` false). -/
structure CState where
  start : Nat
  recs : List ChunkRec
  skips : List (Nat × Nat)
deriving DecidableEq, Repr

/-- The end position of the chunk starting at `st.start`:
`end = start + chunk_size`, snapped to a boundary only when
`end < len(text)`. -/
def chunkEnd (t : PyStr) (chunk_size start : Nat) : Nat :=
  if start + chunk_size < t.len then
    snapEnd t chunk_size start (start + chunk_size)
  else start + chunk_size

/-- One iteration of the `create_overlapping_chunks` loop body: compute the
chunk's end, strip the slice (`chunk = text[start:end].strip()`), append it
when non-empty (`if chunk:`), and move `start` to `end - overlap`. -/
def chunkStep (t : PyStr) (chunk_size overlap : Nat) (st : CState) : CState :=
  let e := chunkEnd t chunk_size st.start
  let hi := min e t.len
  match firstNonWs t st.start hi, lastNonWs t st.start hi with
  | some f, some l =>
    ⟨e - overlap, st.recs ++ [⟨st.start, e, f, l + 1⟩], st.skips⟩
  | _, _ => ⟨e - overlap, st.recs, st.skips ++ [(st.start, e)]⟩

/-- The `while start < len(text) and chunk_count < max_chunks` loop.  The
source's trailing `if start >= len(text): break` merely re-tests the loop
guard.  `none` models a run that does not terminate within `fuel` (the
source can loop forever, e.g. on whitespace runs when
`chunk_size ≤ overlap + 1`). -/
def chunkLoop (t : PyStr) (chunk_size overlap max_chunks : Nat) :
    Nat → CState → Option CState
  | 0, _ => none
  | fuel + 1, st =>
    if st.start < t.len ∧ st.recs.length < max_chunks then
      chunkLoop t chunk_size overlap max_chunks fuel
        (chunkStep t chunk_size overlap st)
    else some st

/-- Result of `create_overlapping_chunks`, instrumented with the diagnostics
the source prints: `truncated` (input over the 1,000,000-character ceiling),
`adjusted` (the adaptive chunk-size branch fired), `capWarn` (the final
"only processed ... chunks" warning: `start < len(text)` and
`chunk_count >= max_chunks`). -/
structure ChunkOutcome where
  recs : List ChunkRec
  skips : List (Nat × Nat)
  finalStart : Nat
  truncated : Bool
  adjusted : Bool
  capWarn : Bool
deriving DecidableEq, Repr

/-- `create_overlapping_chunks(text, chunk_size, overlap, max_chunks)`.
Empty text returns no chunks; text beyond 1,000,000 characters is truncated
first.  The adaptive branch fires when `len(text) / (chunk_size - overlap)
> max_chunks` (Python true division; for the magnitudes involved the float
comparison is exact, so it is modelled as `len > max_chunks * (chunk_size -
overlap)`), setting `chunk_size = int(len/max_chunks) + overlap` (float
truncation = floor division here) and `overlap = min(overlap,
int(new_chunk_size * 0.1))` (modelled as `new_chunk_size / 10`, exact for
these magnitudes). -/
def create_overlapping_chunks (t : PyStr)
    (chunk_size overlap max_chunks fuel : Nat) : Option ChunkOutcome :=
  if t.len = 0 then some ⟨[], [], 0, false, false, false⟩
  else
    let truncated := t.len > 1000000
    let tl : PyStr := ⟨min t.len 1000000, t.chr⟩
    let adjusted := tl.len > max_chunks * (chunk_size - overlap)
    let cs := if adjusted then tl.len / max_chunks + overlap else chunk_size
    let ov :=
      if adjusted then min overlap ((tl.len / max_chunks + overlap) / 10)
      else overlap
    (chunkLoop tl cs ov max_chunks fuel ⟨0, [], []⟩).map fun st =>
      ⟨st.recs, st.skips, st.start, truncated, adjusted,
        decide (st.start < tl.len) && decide (max_chunks ≤ st.recs.length)⟩

/-- Position `p` of the text is inside the stripped source range of one of
the produced chunks. -/
def coveredBy (recs : List ChunkRec) (p : Nat) : Prop :=
  ∃ r ∈ recs, r.ss ≤ p ∧ p < r.se

/-- Test vector for the chunker: a 10,000-character transcript whose first
3000 characters are non-whitespace and whose last 7000 are spaces. -/
def wsTailText : PyStr := ⟨10000, fun i => if i < 3000 then 'a' else ' '⟩

/-! ## `utils/template_loader.py` -/

/-- A summary template as stored in the YAML-backed dict: the `structure`
key is called `sections` here (`structure` is a Lean keyword).  `keywords`
is optional, mirroring the source's `if 'keywords' not in template:
continue`. -/
structure Template where
  intro : Str := []
  sections : List Str := []
  tone : Str := []
  emoji : Str := []
  keywords : Option (List Str) := none
deriving DecidableEq, Repr

/-- The template dictionary: an insertion-ordered association list, as
Python dicts are. -/
abbrev TDict := List (Str × Template)

/-- Python `d[k]` / `d.get(k)`: the value at the first (unique) matching
key. -/
def lookupT : TDict → Str → Option Template
  | [], _ => none
  | p :: rest, k => if p.1 == k then some p.2 else lookupT rest k

/-- Python `k in d`. -/
def containsKey (d : TDict) (k : Str) : Bool :=
  d.any fun p => p.1 == k

/-- Python `d.update(u)`: replace values of existing keys in place, append
new keys in `u`'s order. -/
def dictUpdate (d u : TDict) : TDict :=
  u.foldl
    (fun acc kv =>
      if containsKey acc kv.1 then
        acc.map fun p => if p.1 == kv.1 then (p.1, kv.2) else p
      else acc ++ [kv])
    d

/-- The built-in `default` template of `load_summary_templates`. -/
def defaultTemplate : Template :=
  { intro := S "This video covers {title_topic}."
    sections := [S "Main Points:", S "Key Insights:"]
    tone := S "informative"
    emoji := S "📺"
    keywords := some [S "video", S "content", S "information"] }

/-- `load_summary_templates()`: start from the dict holding the built-in
`default` template, then `update` with the main YAML file's templates and
then with the hybrid YAML file's templates (each possibly empty when the
file fails to load). -/
def load_summary_templates (main hybrid : TDict) : TDict :=
  dictUpdate (dictUpdate [(S "default", defaultTemplate)] main) hybrid

/-- The analysis text of `detect_template_from_content`: the lowered title
twice (weighting it), then the first `sampleSize` characters of the lowered
transcript; each part only when truthy. -/
def analysisText (transcript title : Option Str) (sampleSize : Nat) : Str :=
  (if truthyS title then
    lowerS (title.getD []) ++ S " " ++ lowerS (title.getD []) ++ S " "
  else []) ++
  (if truthyS transcript then lowerS ((transcript.getD []).take sampleSize)
  else [])

/-- Per-keyword score of `detect_template_from_content`: a multi-word
keyword scores 3 for an exact substring match in the analysis text, plus 4
when it also occurs in the lowered title; a single-word keyword scores 1 for
a whole-word match (`\b...\b`), plus 2 when it also whole-word-matches the
lowered title. -/
def keywordScore (analysis : Str) (titleLower : Option Str) (kw : Str) :
    Nat :=
  if kw.contains ' ' then
    if containsSub analysis kw then
      3 + (match titleLower with
        | some tl => if containsSub tl kw then 4 else 0
        | none => 0)
    else 0
  else
    if wordMatch analysis kw then
      1 + (match titleLower with
        | some tl => if wordMatch tl kw then 2 else 0
        | none => 0)
    else 0

/-- Python `name.split('_')` (for hybrid template names). -/
def splitOnUnderscore (s : Str) : List Str :=
  go [] s
where
  go (cur : Str) : Str → List Str
    | [] => [cur.reverse]
    | c :: rest =>
      if c == '_' then cur.reverse :: go [] rest else go (c :: cur) rest

/-- The `+5` genre bonus: `detected_genre` truthy and
`detected_genre.lower() in template_name.lower()`. -/
def genreBonus (genreO : Option Str) (template_name : Str) : Nat :=
  if truthyS genreO &&
      containsSub (lowerS template_name) (lowerS (genreO.getD [])) then 5
  else 0

/-- The hybrid-template bonus: for names containing `'_'`, each
underscore-separated segment adds 3 when the segment (lowered) occurs in the
lowered detected genre, plus 2 when at least 3 of the template's keywords
occur (plain substring) in the analysis text — the keyword count is computed
inside the per-segment loop, so the `+2` accrues once per segment. -/
def hybridBonus (analysis : Str) (genreO : Option Str) (template_name : Str)
    (kws : List Str) : Nat :=
  if template_name.contains '_' then
    let kwCount := (kws.filter fun kw => containsSub analysis kw).length
    ((splitOnUnderscore template_name).map fun seg =>
      (if truthyS genreO &&
          containsSub (lowerS (genreO.getD [])) (lowerS seg) then 3
       else 0) +
      (if 3 ≤ kwCount then 2 else 0)).sum
  else 0

/-- Total score of one template in `detect_template_from_content`: the
keyword loop's accumulation, then the genre bonus, then the hybrid loop. -/
def templateScore (analysis : Str) (titleLower genreO : Option Str)
    (template_name : Str) (kws : List Str) : Nat :=
  (kws.foldl (fun acc kw => acc + keywordScore analysis titleLower kw) 0) +
  genreBonus genreO template_name + hybridBonus analysis genreO template_name kws

/-- The scored templates, in dict order, skipping keyword-less templates
(`if 'keywords' not in template: continue`). -/
def templateScores (templates : TDict) (transcript title genreO : Option Str) :
    List (Str × Nat) :=
  let analysis := analysisText transcript title 2000
  let titleLower :=
    if truthyS title then some (lowerS (title.getD [])) else none
  templates.filterMap fun p =>
    p.2.keywords.map fun kws =>
      (p.1, templateScore analysis titleLower genreO p.1 kws)

/-- `sorted(template_scores.items(), key=lambda x: x[1], reverse=True)[0]`:
Python's stable descending sort puts first the earliest entry holding the
maximal score; only a strictly greater score displaces the current best. -/
def pickBest : List (Str × Nat) → Option (Str × Nat)
  | [] => none
  | x :: xs => some (xs.foldl (fun cur y => if cur.2 < y.2 then y else cur) x)

/-- `detect_template_from_content(templates, transcript_text, video_title,
detected_genre)`: `None` when the templates dict is falsy or both texts are
falsy; otherwise the best-scoring template is returned exactly when its
score reaches the threshold 3. -/
def detect_template_from_content (templates : TDict)
    (transcript title genreO : Option Str) : Option Template :=
  if templates.isEmpty || (!truthyS transcript && !truthyS title) then none
  else
    match pickBest (templateScores templates transcript title genreO) with
    | none => none
    | some best => if 3 ≤ best.2 then lookupT templates best.1 else none

/-- The `genre_mapping` literal of `get_summary_template`. -/
def genre_mapping : List (Str × List Str) :=
  [(S "educational", [S "educational", S "tutorial", S "course", S "learn"]),
   (S "tutorial", [S "tutorial", S "how-to", S "how to"]),
   (S "podcast", [S "podcast"]),
   (S "interview", [S "interview", S "conversation"]),
   (S "entertainment", [S "entertainment"]),
   (S "vlog", [S "vlog", S "daily", S "personal"]),
   (S "news", [S "news", S "commentary"]),
   (S "documentary", [S "documentary"]),
   (S "review", [S "review", S "analysis"]),
   (S "gaming", [S "gaming", S "gameplay", S "game"]),
   (S "sports", [S "sports", S "highlight", S "athletic"]),
   (S "movie_recap", [S "movie", S "recap", S "film", S "show"]),
   (S "music", [S "music", S "performance", S "concert"]),
   (S "cooking", [S "cooking", S "recipe", S "food"]),
   (S "motivational", [S "motivational", S "self-help", S "inspiration"]),
   (S "technical", [S "technical", S "developer", S "programming",
     S "coding"]),
   (S "business", [S "business", S "finance", S "investment"]),
   (S "health", [S "health", S "fitness", S "workout"]),
   (S "travel", [S "travel", S "destination", S "tourism"]),
   (S "science", [S "science", S "explainer"]),
   (S "comedy", [S "comedy", S "humor", S "funny"]),
   (S "reaction", [S "reaction", S "reacting", S "react"]),
   (S "unboxing", [S "unboxing", S "package", S "unbox"]),
   (S "debate", [S "debate", S "versus", S "vs"]),
   (S "history", [S "history", S "historical", S "ancient"]),
   (S "diy", [S "diy", S "do it yourself", S "craft"]),
   (S "technology", [S "technology", S "tech", S "gadget"]),
   (S "beauty", [S "beauty", S "makeup", S "cosmetic"])]

/-- The `content_type_mapping` literal of `get_summary_template`. -/
def content_type_mapping : List (Str × List Str) :=
  [(S "instructional", [S "tutorial", S "educational", S "diy", S "cooking"]),
   (S "informational", [S "educational", S "documentary", S "news",
     S "science"]),
   (S "conversational", [S "interview", S "podcast", S "debate"]),
   (S "narrative", [S "movie_recap", S "documentary", S "history"]),
   (S "analytical", [S "review", S "technical", S "science", S "business"]),
   (S "demonstrative", [S "tutorial", S "cooking", S "diy", S "beauty"]),
   (S "entertaining", [S "comedy", S "entertainment", S "gaming",
     S "reaction"]),
   (S "persuasive", [S "motivational", S "review", S "business"]),
   (S "inspirational", [S "motivational", S "sports"])]

/-- The content-type tier: for the first content type occurring as a
substring of the normalized content type, return the first of its template
keys that is present in the dict; a matching content type none of whose
keys are present falls through to the next one. -/
def ctTier (templates : TDict) (normCt : Str) :
    List (Str × List Str) → Option Template
  | [] => none
  | (ctt, keys) :: rest =>
    if containsSub normCt ctt then
      match keys.find? fun k => containsKey templates k with
      | some k => lookupT templates k
      | none => ctTier templates normCt rest
    else ctTier templates normCt rest

/-- `norm_genre = genre.lower() if genre else ""` (and likewise for the
content type): `None` and `""` normalize to `""`. -/
def normLower (o : Option Str) : Str :=
  lowerS ((o.filter fun g => !g.isEmpty).getD [])

/-- `get_summary_template(genre, content_type, templates, transcript_text,
video_title)`.  `.error` models the `KeyError` that
`templates.get(template_key, templates["default"])` raises when the dict
lacks a `default` key (the `.get` default argument is evaluated eagerly);
`.ok none` models returning Python `None` (the final
`templates.get("default")`). -/
def get_summary_template (genreO ctO : Option Str) (templates : TDict)
    (transcript title : Option Str) : Except String (Option Template) :=
  match
    (if truthyS transcript || truthyS title then
      detect_template_from_content templates transcript title genreO
    else none) with
  | some t => .ok (some t)
  | none =>
    match lookupT templates (normLower genreO) with
    | some t => .ok (some t)
    | none =>
      match genre_mapping.find? fun p =>
          p.2.any fun kw => containsSub (normLower genreO) kw with
      | some p =>
        (match lookupT templates (S "default") with
          | some d => .ok (some ((lookupT templates p.1).getD d))
          | none => .error "KeyError: default")
      | none =>
        match ctTier templates (normLower ctO) content_type_mapping with
        | some t => .ok (some t)
        | none => .ok (lookupT templates (S "default"))

/-! ## `comprehensive_summarizer.py` (not among the sources) -/

/-- Modelled from the spec: `generate_summaries_incrementally` of
`transcript_summarizer/comprehensive_summarizer.py`, a module absent from
the provided sources (only its callers `incremental_summarize_transcript.py`
and `test_incremental_generation.py` are present).  Per spec §4.7 and §3:
the orchestrator invokes the full pipeline once per configured
(difficulty, length) key — the priority-ordered subset first, the remainder
after — and a failed variant is recorded in the matrix as a failure marker
string (the callers test `summary.startswith("Summary generation failed")`),
never omitted.  `gen` is the per-variant pipeline: `none` models a variant
whose generation failed. -/
def generate_summaries_incrementally
    (keySpace priority : List (String × String))
    (gen : String → String → Option String) :
    List ((String × String) × String) :=
  ((priority.filter fun k => decide (k ∈ keySpace)) ++
   (keySpace.filter fun k => decide (k ∉ priority))).map fun k =>
    (k, (gen k.1 k.2).getD "Summary generation failed for this variant")

/-! ## Supporting lemmas -/

theorem scanDown_some (pred : Nat → Bool) (lo : Nat) :
    ∀ n i, scanDown pred lo n = some i →
      pred i = true ∧ lo ≤ i ∧ i < lo + n ∧
      ∀ j, i < j → j < lo + n → pred j = false := by
  intro n
  induction n with
  | zero => intro i h; simp [scanDown] at h
  | succ m ih =>
    intro i h
    rw [scanDown] at h
    by_cases hp : pred (lo + m) = true
    · rw [if_pos hp] at h
      obtain rfl : lo + m = i := by simpa using h
      exact ⟨hp, Nat.le_add_right _ _, by omega, fun j hj1 hj2 => by omega⟩
    · rw [if_neg hp] at h
      obtain ⟨h1, h2, h3, h4⟩ := ih i h
      refine ⟨h1, h2, by omega, fun j hj1 hj2 => ?_⟩
      by_cases hj : j < lo + m
      · exact h4 j hj1 hj
      · have : j = lo + m := by omega
        subst this
        simpa using hp

theorem scanDown_none (pred : Nat → Bool) (lo : Nat) :
    ∀ n, scanDown pred lo n = none →
      ∀ j, lo ≤ j → j < lo + n → pred j = false := by
  intro n
  induction n with
  | zero => intro _ j h1 h2; omega
  | succ m ih =>
    intro h j h1 h2
    rw [scanDown] at h
    by_cases hp : pred (lo + m) = true
    · rw [if_pos hp] at h; exact absurd h (by simp)
    · rw [if_neg hp] at h
      by_cases hj : j < lo + m
      · exact ih h j h1 hj
      · have : j = lo + m := by omega
        subst this
        simpa using hp

theorem scanDown_eq_none_of (pred : Nat → Bool) (lo : Nat) :
    ∀ n, (∀ j, lo ≤ j → j < lo + n → pred j = false) →
      scanDown pred lo n = none := by
  intro n
  induction n with
  | zero => intro _; rfl
  | succ m ih =>
    intro h
    rw [scanDown, if_neg (by simp [h (lo + m) (by omega) (by omega)])]
    exact ih fun j h1 h2 => h j h1 (by omega)

theorem scanDown_top (pred : Nat → Bool) (lo n : Nat)
    (h : pred (lo + n) = true) :
    scanDown pred lo (n + 1) = some (lo + n) := by
  rw [scanDown, if_pos h]

theorem scanDown_drop_top (pred : Nat → Bool) (lo : Nat) :
    ∀ n m, m ≤ n → (∀ j, lo + m ≤ j → j < lo + n → pred j = false) →
      scanDown pred lo n = scanDown pred lo m := by
  intro n
  induction n with
  | zero =>
    intro m hm _
    have : m = 0 := by omega
    subst this
    rfl
  | succ k ih =>
    intro m hm h
    by_cases hmk : m = k + 1
    · subst hmk; rfl
    · rw [scanDown, if_neg (by simp [h (lo + k) (by omega) (by omega)])]
      exact ih m (by omega) fun j h1 h2 => h j h1 (by omega)

theorem scanUp_some (pred : Nat → Bool) :
    ∀ n lo i, scanUp pred lo n = some i →
      pred i = true ∧ lo ≤ i ∧ i < lo + n ∧
      ∀ j, lo ≤ j → j < i → pred j = false := by
  intro n
  induction n with
  | zero => intro lo i h; simp [scanUp] at h
  | succ m ih =>
    intro lo i h
    rw [scanUp] at h
    by_cases hp : pred lo = true
    · rw [if_pos hp] at h
      obtain rfl : lo = i := by simpa using h
      exact ⟨hp, Nat.le_refl _, by omega, fun j hj1 hj2 => by omega⟩
    · rw [if_neg hp] at h
      obtain ⟨h1, h2, h3, h4⟩ := ih (lo + 1) i h
      refine ⟨h1, by omega, by omega, fun j hj1 hj2 => ?_⟩
      by_cases hj : lo + 1 ≤ j
      · exact h4 j hj hj2
      · have : j = lo := by omega
        subst this
        simpa using hp

theorem scanUp_none (pred : Nat → Bool) :
    ∀ n lo, scanUp pred lo n = none →
      ∀ j, lo ≤ j → j < lo + n → pred j = false := by
  intro n
  induction n with
  | zero => intro lo _ j h1 h2; omega
  | succ m ih =>
    intro lo h j h1 h2
    rw [scanUp] at h
    by_cases hp : pred lo = true
    · rw [if_pos hp] at h; exact absurd h (by simp)
    · rw [if_neg hp] at h
      by_cases hj : lo + 1 ≤ j
      · exact ih (lo + 1) h j hj (by omega)
      · have : j = lo := by omega
        subst this
        simpa using hp

theorem scanUp_eq_none_of (pred : Nat → Bool) :
    ∀ n lo, (∀ j, lo ≤ j → j < lo + n → pred j = false) →
      scanUp pred lo n = none := by
  intro n
  induction n with
  | zero => intro lo _; rfl
  | succ m ih =>
    intro lo h
    rw [scanUp, if_neg (by simp [h lo (by omega) (by omega)])]
    exact ih (lo + 1) fun j h1 h2 => h j (by omega) (by omega)

theorem scanUp_bot (pred : Nat → Bool) (lo n : Nat) (h : pred lo = true) :
    scanUp pred lo (n + 1) = some lo := by
  rw [scanUp, if_pos h]

theorem chunkStep_inv (t : PyStr) (cs ov : Nat) (st : CState)
    (hinv : ∀ p, p < st.start → p < t.len →
      isPyWs (t.chr p) = true ∨ coveredBy st.recs p) :
    ∀ p, p < (chunkStep t cs ov st).start → p < t.len →
      isPyWs (t.chr p) = true ∨ coveredBy (chunkStep t cs ov st).recs p := by
  intro p hp hpt
  unfold chunkStep at hp ⊢
  cases hf : firstNonWs t st.start (min (chunkEnd t cs st.start) t.len) with
  | none =>
    simp only [hf] at hp ⊢
    by_cases hps : p < st.start
    · exact hinv p hps hpt
    · left
      have hall := scanUp_none _ _ _ hf p (by omega)
      have hrange : p < min (chunkEnd t cs st.start) t.len := by omega
      have := hall (by omega)
      simpa using this
  | some f =>
    cases hl : lastNonWs t st.start (min (chunkEnd t cs st.start) t.len) with
    | none =>
      simp only [hf, hl] at hp ⊢
      by_cases hps : p < st.start
      · exact hinv p hps hpt
      · left
        have hall := scanDown_none _ _ _ hl p (by omega)
        have := hall (by omega)
        simpa using this
    | some l =>
      simp only [hf, hl] at hp ⊢
      by_cases hps : p < st.start
      · rcases hinv p hps hpt with h | h
        · exact Or.inl h
        · right
          obtain ⟨r, hr, h1, h2⟩ := h
          exact ⟨r, List.mem_append_left _ hr, h1, h2⟩
      · obtain ⟨hf1, hf2, hf3, hf4⟩ := scanUp_some _ _ _ _ hf
        obtain ⟨hl1, hl2, hl3, hl4⟩ := scanDown_some _ _ _ _ hl
        by_cases hpf : p < f
        · left
          have := hf4 p (by omega) hpf
          simpa using this
        · by_cases hpl : l < p
          · left
            have := hl4 p hpl (by omega)
            simpa using this
          · right
            refine ⟨⟨st.start, chunkEnd t cs st.start, f, l + 1⟩,
              List.mem_append_right _ (List.mem_singleton.mpr rfl), ?_, ?_⟩
            · simpa using by omega
            · simpa using by omega

theorem chunkLoop_spec (t : PyStr) (cs ov maxC : Nat) :
    ∀ fuel st st', chunkLoop t cs ov maxC fuel st = some st' →
      (∀ p, p < st.start → p < t.len →
        isPyWs (t.chr p) = true ∨ coveredBy st.recs p) →
      st.recs.length ≤ maxC →
      (∀ p, p < st'.start → p < t.len →
        isPyWs (t.chr p) = true ∨ coveredBy st'.recs p) ∧
      st'.recs.length ≤ maxC ∧
      (st'.start < t.len → maxC ≤ st'.recs.length) := by
  intro fuel
  induction fuel with
  | zero => intro st st' h; simp [chunkLoop] at h
  | succ m ih =>
    intro st st' h hinv hlen
    rw [chunkLoop] at h
    by_cases hg : st.start < t.len ∧ st.recs.length < maxC
    · rw [if_pos hg] at h
      refine ih _ _ h (chunkStep_inv t cs ov st hinv) ?_
      have : (chunkStep t cs ov st).recs.length ≤ st.recs.length + 1 := by
        unfold chunkStep
        cases hf : firstNonWs t st.start (min (chunkEnd t cs st.start) t.len)
          with
        | none => simp [hf]
        | some f =>
          cases hl : lastNonWs t st.start (min (chunkEnd t cs st.start) t.len)
            with
          | none => simp [hf, hl]
          | some l => simp [hf, hl]
      omega
    · rw [if_neg hg] at h
      obtain rfl : st = st' := by simpa using h
      exact ⟨hinv, hlen, fun hlt => by omega⟩

theorem startsWithL_append (p rest : Str) :
    startsWithL p (p ++ rest) = true := by
  induction p with
  | nil => rfl
  | cons c cs ih => simp [startsWithL, ih]

theorem containsSub_nil_needle (s : Str) : containsSub s [] = true := by
  cases s <;> simp [containsSub, startsWithL]

theorem containsSub_self_append (kw b : Str) :
    containsSub (kw ++ b) kw = true := by
  cases kw with
  | nil => simpa using containsSub_nil_needle b
  | cons c cs =>
    simp [containsSub]
    exact Or.inl (by simpa using startsWithL_append (c :: cs) b)

theorem containsSub_append_right (a b kw : Str)
    (h : containsSub b kw = true) : containsSub (a ++ b) kw = true := by
  induction a with
  | nil => simpa using h
  | cons c cs ih => simp [containsSub, ih]

theorem startsWithL_append_of (p : Str) : ∀ s t : Str,
    startsWithL p s = true → startsWithL p (s ++ t) = true := by
  induction p with
  | nil => intro s t _; rfl
  | cons c cs ih =>
    intro s t h
    cases s with
    | nil => simp [startsWithL] at h
    | cons d ds =>
      simp [startsWithL] at h ⊢
      exact ⟨h.1, ih ds t h.2⟩

theorem containsSub_append_left (a b kw : Str)
    (h : containsSub a kw = true) : containsSub (a ++ b) kw = true := by
  induction a with
  | nil =>
    have : kw = [] := by
      cases kw with
      | nil => rfl
      | cons c cs => simp [containsSub] at h
    subst this
    exact containsSub_nil_needle b
  | cons c cs ih =>
    simp only [containsSub, Bool.or_eq_true] at h ⊢
    rcases h with h | h
    · exact Or.inl (startsWithL_append_of kw (c :: cs) b h)
    · exact Or.inr (ih h)

theorem lastSpaceIdx_go_replicate_a (n : Nat) :
    ∀ i acc, lastSpaceIdx.go i acc (List.replicate n 'a') = acc := by
  induction n with
  | zero => intro i acc; rfl
  | succ k ih =>
    intro i acc
    simpa [List.replicate_succ, lastSpaceIdx.go] using ih (i + 1) acc

theorem lastSpaceIdx_replicate_a (n : Nat) :
    lastSpaceIdx (List.replicate n 'a') = none :=
  lastSpaceIdx_go_replicate_a n 0 none

theorem splitStep_replicate_a (N cs ov s : Nat) :
    splitStep (List.replicate N 'a') cs ov s
      = (List.replicate (min cs (N - s)) 'a', s + cs - ov) := by
  have hmin : min cs (min cs (N - s)) = min cs (N - s) := by omega
  unfold splitStep
  simp only [List.drop_replicate, List.take_replicate, List.length_replicate,
    lastSpaceIdx_replicate_a]
  split <;> simp [hmin]

theorem splitLoop_step (text : Str) (cs ov start fuel : Nat)
    (h : start < text.length) :
    splitLoop text cs ov start (fuel + 1)
      = match splitLoop text cs ov (splitStep text cs ov start).2 fuel with
        | some rest => some ((splitStep text cs ov start).1 :: rest)
        | none => none := by
  rw [splitLoop]
  simp [h]

theorem splitLoop_done (text : Str) (cs ov start fuel : Nat)
    (h : ¬ start < text.length) :
    splitLoop text cs ov start (fuel + 1) = some [] := by
  rw [splitLoop]
  simp [h]

theorem split_replicate_3001 :
    split_text_into_chunks (List.replicate 3001 'a') 2500 250 50
      = some [List.replicate 2500 'a', List.replicate 751 'a'] := by
  unfold split_text_into_chunks
  rw [show (50 : Nat) = 49 + 1 from rfl,
    splitLoop_step _ _ _ _ _ (by rw [List.length_replicate]; omega),
    splitStep_replicate_a]
  norm_num
  rw [show (49 : Nat) = 48 + 1 from rfl,
    splitLoop_step _ _ _ _ _ (by rw [List.length_replicate]; omega),
    splitStep_replicate_a]
  norm_num
  rw [show (48 : Nat) = 47 + 1 from rfl,
    splitLoop_done _ _ _ _ _ (by rw [List.length_replicate]; omega)]

/-! ## Claim C2 -/

/-- Claim C2 (amended): for every input text split into N chunks,
`process_in_batches` returns exactly N results, in original chunk-index
order; entry `i` is the processor's raw return value when the call returned
normally, and the failure dict carrying the original chunk text,
`chunk_idx = i+1` and `success=False` when the call raised; one chunk's
outcome never affects a sibling's entry (entry `i` depends only on the
processor's behaviour at chunk `i`). -/
theorem process_in_batches_entries {α : Type} (text : Str)
    (proc : Str → Nat → Nat → Except String α)
    (cs ov fuel : Nat) (chunks : List Str) (out : List (BatchEntry α))
    (hsplit : split_text_into_chunks text cs ov fuel = some chunks)
    (hout : process_in_batches text proc cs ov fuel = some out) :
    out.length = chunks.length ∧
    ∀ i, i < chunks.length →
      (∀ v, proc (chunks.getD i []) (i + 1) chunks.length = .ok v →
        out[i]? = some (BatchEntry.ok v)) ∧
      (∀ e, proc (chunks.getD i []) (i + 1) chunks.length = .error e →
        out[i]? = some (BatchEntry.failed (chunks.getD i []) (i + 1) e)) := by
  have hg : out = gatherBatch chunks proc := by
    rw [process_in_batches, hsplit] at hout
    simpa using hout.symm
  subst hg
  refine ⟨by simp [gatherBatch], fun i hi => ⟨fun v hv => ?_, fun e he => ?_⟩⟩
  · rw [List.getD_eq_getElem _ _ hi] at hv
    simp [gatherBatch, List.getElem?_map, List.getElem?_range, hi, hv,
      List.getD_eq_getElem _ _ hi]
  · rw [List.getD_eq_getElem _ _ hi] at he
    simp [gatherBatch, List.getElem?_map, List.getElem?_range, hi, he,
      List.getD_eq_getElem _ _ hi]

/-- Witness for `process_in_batches_entries` at a concrete two-chunk input
with one raising processor call. -/
theorem process_in_batches_entries_witness :
    [BatchEntry.failed (S "abcdefg") 1 "boom",
     BatchEntry.ok (S "fghij")].length = [S "abcdefg", S "fghij"].length ∧
    ∀ i, i < [S "abcdefg", S "fghij"].length →
      (∀ v, (if i + 1 = 1 then Except.error "boom"
              else Except.ok ([S "abcdefg", S "fghij"].getD i [])) = .ok v →
        [BatchEntry.failed (S "abcdefg") 1 "boom",
         BatchEntry.ok (S "fghij")][i]? = some (BatchEntry.ok v)) ∧
      (∀ e, (if i + 1 = 1 then Except.error "boom"
              else Except.ok ([S "abcdefg", S "fghij"].getD i [])) = .error e →
        [BatchEntry.failed (S "abcdefg") 1 "boom",
         BatchEntry.ok (S "fghij")][i]?
          = some (BatchEntry.failed ([S "abcdefg", S "fghij"].getD i [])
              (i + 1) e)) := by
  exact process_in_batches_entries (S "abcdefghij")
    (fun c i _ => if i = 1 then Except.error "boom" else Except.ok c) 7 2 20
    [S "abcdefg", S "fghij"]
    [BatchEntry.failed (S "abcdefg") 1 "boom", BatchEntry.ok (S "fghij")]
    (by decide) (by decide)

/-- Claim C2 (counterexample): the claim as stated says every result is
tagged `success=True` or `success=False`; but when the processor returns
normally, `process_in_batches` appends the processor's raw return value, and
with the repository's own correction processor (`fix_transcript_chunk`, whose
dict has only `orig_transcript`/`fixed_transcript`) the entry carries no
`success` key at all. -/
theorem process_in_batches_untagged_entry :
    process_in_batches (S "hello")
        (fun c i t => .ok (fix_transcript_chunk c i t (.error "down")))
        2500 250 10
      = some [.ok (⟨S "hello", S "hello"⟩ : CorrectionResult)] ∧
    (BatchEntry.ok (⟨S "hello", S "hello"⟩ : CorrectionResult)).successField
        CorrectionResult.successField ≠ some true ∧
    (BatchEntry.ok (⟨S "hello", S "hello"⟩ : CorrectionResult)).successField
        CorrectionResult.successField ≠ some false := by
  refine ⟨by decide, by decide, by decide⟩

/-! ## Claim C10 -/

theorem correct_transcript_batched_pair_keyerror (text c1 c2 : Str)
    (e : String) (cs ov fuel : Nat)
    (h : split_text_into_chunks text cs ov fuel = some [c1, c2]) :
    correct_transcript_batched text (fun _ => .error e) cs ov fuel
      = some (.error "KeyError: chunk_idx") := by
  rw [correct_transcript_batched, process_in_batches, h]
  simp [gatherBatch, combineCorrectionResults, fix_transcript_chunk,
    List.range_succ, BatchEntry.chunkIdxField, CorrectionResult.chunkIdxField]

theorem via_process_chunk_pair (text c1 c2 : Str) (e : String)
    (cs ov fuel : Nat)
    (h : split_text_into_chunks text cs ov fuel = some [c1, c2]) :
    correct_transcript_batched_via_process_chunk text (fun _ => .error e)
        cs ov fuel
      = some (c1 ++ S " " ++ c2) := by
  rw [correct_transcript_batched_via_process_chunk, h]
  simp [process_chunk, fix_transcript_chunk, List.range_succ, joinWith,
    List.getD]

theorem correct_transcript_async_long (t : Str)
    (co : Nat → Except String CorrectionResult)
    (so : Except String Str) (fuel : Nat)
    (h1 : t.isEmpty = false) (h2 : t.length > 3000) :
    correct_transcript_async t co so fuel
      = (correct_transcript_batched t co 2500 250 fuel).map
          fun r => match r with
            | .ok s => s
            | .error _ => t := by
  unfold correct_transcript_async
  rw [h1]
  simp [h2]

/-- Claim C10: for the 3001-character transcript `'a' * 3001` (two chunks at
`chunk_size=2500, overlap=250`) with every per-chunk correction raising,
`correct_transcript_batched` does not return the space-joined chunk text at
all: `sorted(results, key=lambda x: x['chunk_idx'])` raises `KeyError`
because `process_in_batches` returned the correction wrapper's raw dicts,
which have no `chunk_idx` key; `correct_transcript_async` catches the error
and returns the input verbatim — an identity round trip.  The space-join the
combiner was written for (with results tagged by the module's own
`process_chunk`) would produce the overlap-duplicating 3252-character text
the claim describes, which indeed differs from the input. -/
theorem correct_transcript_batched_keyerror_roundtrip :
    split_text_into_chunks (List.replicate 3001 'a') 2500 250 50
      = some [List.replicate 2500 'a', List.replicate 751 'a'] ∧
    correct_transcript_batched (List.replicate 3001 'a')
        (fun _ => .error "service unavailable") 2500 250 50
      = some (.error "KeyError: chunk_idx") ∧
    correct_transcript_async (List.replicate 3001 'a')
        (fun _ => .error "service unavailable") (.error "service unavailable") 50
      = some (List.replicate 3001 'a') ∧
    correct_transcript_batched_via_process_chunk (List.replicate 3001 'a')
        (fun _ => .error "service unavailable") 2500 250 50
      = some (List.replicate 2500 'a' ++ S " " ++ List.replicate 751 'a') ∧
    (List.replicate 2500 'a' ++ S " " ++ List.replicate 751 'a' : Str)
      ≠ List.replicate 3001 'a' := by
  have hsplit := split_replicate_3001
  have hbatch := correct_transcript_batched_pair_keyerror _ _ _
    "service unavailable" 2500 250 50 hsplit
  refine ⟨hsplit, hbatch, ?_, ?_, ?_⟩
  · have hne : List.replicate 3001 'a' ≠ [] := by
      apply List.ne_nil_of_length_pos
      rw [List.length_replicate]; omega
    rw [correct_transcript_async_long _ _ _ _
      (by simp [List.isEmpty_iff, hne])
      (by rw [List.length_replicate]; omega), hbatch]
    rfl
  · exact via_process_chunk_pair _ _ _ "service unavailable" 2500 250 50 hsplit
  · intro h
    have hlen := congrArg List.length h
    simp only [List.length_append, List.length_replicate, S, String.data] at hlen
    omega

/-! ## Claim C1 -/

theorem process_single_chunk_first_attempt
    (remote : Nat → Except String Str) (chunk title : Str)
    (idx total : Nat) :
    process_single_chunk remote chunk title idx total
      = summarize_chunk_async (remote 0) chunk title idx total := rfl

/-- Claim C1 (counterexample): a batch of 3 chunks where only chunk 2's
remote call always throws does not yield a Fallback for chunk 2: it yields
the error marker `"[Chunk 2 summary unavailable due to error]"`, which is
not `_create_fallback_chunk_summary`'s output and does not contain the
chunk's first 150 characters. -/
theorem chunk_two_marker_not_fallback :
    process_chunks_in_parallel
        [S "alpha", List.replicate 160 'b', S "gamma"] (S "T")
        (fun i _ =>
          if i = 1 then .error "boom"
          else if i = 0 then .ok (S "S1") else .ok (S "S3"))
      = [S "S1", S "[Chunk 2 summary unavailable due to error]", S "S3"] ∧
    S "[Chunk 2 summary unavailable due to error]"
      ≠ create_fallback_chunk_summary (List.replicate 160 'b') 2 ∧
    containsSub (S "[Chunk 2 summary unavailable due to error]")
      ((List.replicate 160 'b').take 150) = false := by
  refine ⟨by decide, by decide, by decide⟩

/-- Claim C1 (amended): the chunk processor is total (never raises), but a
chunk whose remote call throws on every attempt yields — already on the
first attempt, because `summarize_chunk_async` catches the exception before
the retry loop can see it — the error marker
`"[Chunk N summary unavailable due to error]"`, not the 150-character
fallback; the batch result is `[Success, ErrorMarker, Success]` in original
order.  The fallback builder `_create_fallback_chunk_summary` itself does
contain the chunk's stripped first `min(150, len)` characters, but is only
reachable if `summarize_chunk_async` itself raised. -/
theorem process_chunks_in_parallel_error_marker
    (c1 c2 c3 title s1 s3 : Str) (remote : Nat → Nat → Except String Str)
    (h0 : remote 0 0 = .ok s1)
    (h1 : ∀ k, ∃ e, remote 1 k = .error e)
    (h2 : remote 2 0 = .ok s3) :
    process_chunks_in_parallel [c1, c2, c3] title remote
      = [s1, S "[Chunk 2 summary unavailable due to error]", s3] ∧
    ∀ (chunk : Str) (n : Nat),
      containsSub (create_fallback_chunk_summary chunk n)
        (stripS (chunk.take (min 150 chunk.length))) = true := by
  constructor
  · obtain ⟨e, he⟩ := h1 0
    simp only [process_chunks_in_parallel, List.enum, List.enumFrom,
      List.map, process_single_chunk_first_attempt, h0, h2, he,
      summarize_chunk_async]
    norm_num
    decide
  · intro chunk n
    unfold create_fallback_chunk_summary
    by_cases h : chunk.length > min 150 chunk.length <;>
      simp only [h, if_pos, if_neg, ite_true, ite_false] <;>
      · simp only [List.append_assoc]
        repeat
          first
          | exact containsSub_self_append _ _
          | apply containsSub_append_right

/-- Witness for `process_chunks_in_parallel_error_marker`. -/
theorem process_chunks_in_parallel_error_marker_witness :
    process_chunks_in_parallel
        [S "a", S "b", S "c"] (S "T")
        (fun i _ =>
          if i = 1 then .error "boom"
          else if i = 0 then .ok (S "one") else .ok (S "three"))
      = [S "one", S "[Chunk 2 summary unavailable due to error]", S "three"] ∧
    ∀ (chunk : Str) (n : Nat),
      containsSub (create_fallback_chunk_summary chunk n)
        (stripS (chunk.take (min 150 chunk.length))) = true :=
  process_chunks_in_parallel_error_marker (S "a") (S "b") (S "c") (S "T")
    (S "one") (S "three") _ rfl (fun _ => ⟨"boom", rfl⟩) rfl

/-! ## Claim C4 -/

theorem generate_basic_summary_contains_title (t v : Str) :
    containsSub (generate_basic_summary t v) v = true := by
  simp only [generate_basic_summary]
  apply containsSub_append_left
  apply containsSub_append_left
  apply containsSub_append_left
  split <;> split <;>
    (simp only [List.append_assoc]
     apply containsSub_append_right
     exact containsSub_self_append _ _)

theorem generate_basic_summary_ne_nil (t v : Str) :
    generate_basic_summary t v ≠ [] := by
  intro h
  simp only [generate_basic_summary] at h
  rcases List.append_eq_nil.mp h with ⟨-, h2⟩
  exact absurd h2 (by decide)

/-- Claim C4: when every chunk result is a failed marker, the `try` body of
`create_comprehensive_summary_async` raises
`ValueError("No valid chunk summaries available for comprehensive summary")`
(the spec's `NoValidInputError`), and the caller-visible result is the
extractive fallback `generate_basic_summary(transcript_text[:10000],
video_title)` — never an exception — which contains the literal title and is
non-empty. -/
theorem assemble_all_failed_extractive_fallback
    (chunk_summaries : List Str) (title transcript : Str)
    (rest : Str → Except String Str)
    (hall : ∀ s ∈ chunk_summaries, isFailedMarker s = true) :
    create_comprehensive_summary_inner chunk_summaries rest
      = .error "No valid chunk summaries available for comprehensive summary" ∧
    create_comprehensive_summary_async chunk_summaries title transcript rest
      = generate_basic_summary (transcript.take 10000) title ∧
    containsSub
      (create_comprehensive_summary_async chunk_summaries title transcript rest)
      title = true ∧
    create_comprehensive_summary_async chunk_summaries title transcript rest
      ≠ [] := by
  have hfilter : (chunk_summaries.filter fun s => !(isFailedMarker s)) = [] := by
    rw [List.filter_eq_nil_iff]
    intro s hs
    simp [hall s hs]
  have hinner : create_comprehensive_summary_inner chunk_summaries rest
      = .error "No valid chunk summaries available for comprehensive summary" := by
    rw [create_comprehensive_summary_inner, hfilter]
    rfl
  have hasync : create_comprehensive_summary_async chunk_summaries title
      transcript rest = generate_basic_summary (transcript.take 10000) title := by
    rw [create_comprehensive_summary_async, hinner, hfilter]
    rfl
  refine ⟨hinner, hasync, ?_, ?_⟩
  · rw [hasync]; exact generate_basic_summary_contains_title _ _
  · rw [hasync]; exact generate_basic_summary_ne_nil _ _

/-- Witness for `assemble_all_failed_extractive_fallback`. -/
theorem assemble_all_failed_extractive_fallback_witness :
    create_comprehensive_summary_inner
        [S "[Chunk 1 summary unavailable due to error]"] (fun _ => .ok (S "x"))
      = .error "No valid chunk summaries available for comprehensive summary" ∧
    create_comprehensive_summary_async
        [S "[Chunk 1 summary unavailable due to error]"] (S "My Title")
        (S "hello world transcript") (fun _ => .ok (S "x"))
      = generate_basic_summary ((S "hello world transcript").take 10000)
          (S "My Title") ∧
    containsSub
      (create_comprehensive_summary_async
        [S "[Chunk 1 summary unavailable due to error]"] (S "My Title")
        (S "hello world transcript") (fun _ => .ok (S "x")))
      (S "My Title") = true ∧
    create_comprehensive_summary_async
        [S "[Chunk 1 summary unavailable due to error]"] (S "My Title")
        (S "hello world transcript") (fun _ => .ok (S "x"))
      ≠ [] :=
  assemble_all_failed_extractive_fallback
    [S "[Chunk 1 summary unavailable due to error]"] (S "My Title")
    (S "hello world transcript") (fun _ => .ok (S "x")) (by decide)

/-! ## Claim C7 -/

set_option maxRecDepth 1000000 in
/-- Claim C7 (counterexample): with six valid chunk summaries and a failing
remainder of the assembly, the emergency fallback contains the sixth valid
summary — the assembler does not cap the concatenation to the first 5. -/
theorem assemble_fallback_uncapped :
    (∀ s ∈ [S "a1", S "a2", S "a3", S "a4", S "a5", S "a6"],
      isFailedMarker s = false) ∧
    containsSub
      (create_comprehensive_summary_async
        [S "a1", S "a2", S "a3", S "a4", S "a5", S "a6"]
        (S "T") (S "transcript") (fun _ => .error "boom"))
      (S "a6") = true := by
  refine ⟨by decide, by decide⟩

/-- Claim C7 (amended): on an unexpected assembly failure (the remainder of
the `try` body raising) the assembler falls back to a concatenation of all
the valid chunk summaries (no cap at 5); only when no valid chunk summaries
exist does it fall back to the raw-transcript basic extractive summary. -/
theorem assemble_error_fallback_chain
    (chunk_summaries : List Str) (title transcript : Str)
    (rest : Str → Except String Str) (e : String)
    (hrest : rest (joinWith (S "\n---BREAK---\n")
        (chunk_summaries.filter fun s => !(isFailedMarker s))) = .error e) :
    ((chunk_summaries.filter fun s => !(isFailedMarker s)) ≠ [] →
      create_comprehensive_summary_async chunk_summaries title transcript rest
        = S "🎬 **" ++ title ++
          S "**\n\n**Emergency Fallback Summary**\n\nThe AI was unable to create a unified summary, so here are the individual section summaries:\n\n" ++
          joinWith (S "\n\n")
            (((chunk_summaries.filter fun s => !(isFailedMarker s)).enum.map
              fun p => S "🎬 **Part " ++ natStr (p.1 + 1) ++ S " of " ++
                natStr chunk_summaries.length ++ S "**\n\n" ++ p.2))) ∧
    ((chunk_summaries.filter fun s => !(isFailedMarker s)) = [] →
      create_comprehensive_summary_async chunk_summaries title transcript rest
        = generate_basic_summary (transcript.take 10000) title) := by
  constructor
  · intro hne
    rw [create_comprehensive_summary_async, create_comprehensive_summary_inner]
    have hBool : (chunk_summaries.filter fun s => !(isFailedMarker s)).isEmpty
        = false := by
      simp [List.isEmpty_iff, hne]
    rw [hBool]
    simp only [Bool.false_eq_true, if_false, hrest, hBool, Bool.not_false,
      if_pos, ite_true]
  · intro hnil
    rw [create_comprehensive_summary_async, create_comprehensive_summary_inner,
      hnil]
    rfl

/-- Witness for `assemble_error_fallback_chain`. -/
theorem assemble_error_fallback_chain_witness :
    (([S "good summary"].filter fun s => !(isFailedMarker s)) ≠ [] →
      create_comprehensive_summary_async [S "good summary"] (S "T")
          (S "tr") (fun _ => .error "boom")
        = S "🎬 **" ++ S "T" ++
          S "**\n\n**Emergency Fallback Summary**\n\nThe AI was unable to create a unified summary, so here are the individual section summaries:\n\n" ++
          joinWith (S "\n\n")
            ((([S "good summary"].filter fun s => !(isFailedMarker s)).enum.map
              fun p => S "🎬 **Part " ++ natStr (p.1 + 1) ++ S " of " ++
                natStr [S "good summary"].length ++ S "**\n\n" ++ p.2))) ∧
    (([S "good summary"].filter fun s => !(isFailedMarker s)) = [] →
      create_comprehensive_summary_async [S "good summary"] (S "T")
          (S "tr") (fun _ => .error "boom")
        = generate_basic_summary ((S "tr").take 10000) (S "T")) :=
  assemble_error_fallback_chain [S "good summary"] (S "T") (S "tr")
    (fun _ => .error "boom") "boom" rfl

/-! ## Claim C3 -/

set_option maxRecDepth 1000000 in
/-- Claim C3 (counterexample): a 200-character all-space text with
`chunk_size=100, overlap=0, max_chunks=5` (satisfying the claim's
preconditions) yields no chunks at all — every considered slice strips to
the empty string and is silently skipped — so the chunks' source ranges do
not cover the truncated text (position 0 is uncovered), yet no warning is
emitted (`capWarn = false`, `truncated = false`, and the adaptive branch did
not fire). -/
theorem create_overlapping_chunks_whitespace_uncovered :
    create_overlapping_chunks ⟨200, fun _ => ' '⟩ 100 0 5 50
      = some ⟨[], [(0, 99), (99, 198), (198, 298)], 298, false, false, false⟩ ∧
    ¬ coveredBy ([] : List ChunkRec) 0 ∧
    (⟨[], [(0, 99), (99, 198), (198, 298)], 298, false, false,
      false⟩ : ChunkOutcome).capWarn = false := by
  refine ⟨by decide, ?_, rfl⟩
  rintro ⟨r, hr, -⟩
  simp at hr

/-- Claim C3 (amended): for any text and parameters with
`chunk_size > overlap ≥ 0` and `max_chunks ≥ 1`, on any terminating run of
`create_overlapping_chunks`: the chunk count never exceeds `max_chunks`;
when the loop consumed the whole (truncated) text, every position of the
truncated text is either inside some produced chunk's stripped source range
or holds a whitespace character (whitespace-only slices are silently
dropped); and when the loop stopped with text remaining, the explicit
"only processed ... chunks" warning is emitted. -/
theorem create_overlapping_chunks_cap_coverage_warning (t : PyStr)
    (cs ov maxC fuel : Nat) (res : ChunkOutcome)
    (_hco : ov < cs) (_hmax : 1 ≤ maxC)
    (hrun : create_overlapping_chunks t cs ov maxC fuel = some res) :
    res.recs.length ≤ maxC ∧
    (min t.len 1000000 ≤ res.finalStart →
      ∀ p, p < min t.len 1000000 →
        isPyWs (t.chr p) = true ∨ coveredBy res.recs p) ∧
    (res.finalStart < min t.len 1000000 → res.capWarn = true) := by
  unfold create_overlapping_chunks at hrun
  by_cases h0 : t.len = 0
  · rw [if_pos h0] at hrun
    obtain rfl : (⟨[], [], 0, false, false, false⟩ : ChunkOutcome) = res := by
      simpa using hrun
    refine ⟨by simp, fun _ p hp => ?_, fun h => ?_⟩
    · omega
    · simp at h; omega
  · rw [if_neg h0] at hrun
    obtain ⟨st, hloop, hres⟩ := Option.map_eq_some'.mp hrun
    have hspec := chunkLoop_spec ⟨min t.len 1000000, t.chr⟩ _ _ maxC fuel
      ⟨0, [], []⟩ st hloop
      (fun p hp _ => absurd (show p < 0 from hp) (by omega))
      (by simp)
    obtain ⟨hcov, hlen, hcap⟩ := hspec
    subst hres
    dsimp only
    refine ⟨hlen, fun hdone p hp => ?_, fun hlt => ?_⟩
    · exact hcov p (by omega) (show p < min t.len 1000000 from hp)
    · have h1 : st.start < min t.len 1000000 := hlt
      have h2 := hcap h1
      simp [h1, h2]

/-- Witness for `create_overlapping_chunks_cap_coverage_warning` at a small
whitespace-free input. -/
theorem create_overlapping_chunks_cap_coverage_warning_witness :
    (⟨[⟨0, 3, 0, 3⟩, ⟨2, 5, 2, 5⟩, ⟨4, 7, 4, 5⟩], [], 6, false, false,
      false⟩ : ChunkOutcome).recs.length ≤ 5 ∧
    (min (⟨5, fun _ => 'a'⟩ : PyStr).len 1000000 ≤
      (⟨[⟨0, 3, 0, 3⟩, ⟨2, 5, 2, 5⟩, ⟨4, 7, 4, 5⟩], [], 6, false, false,
        false⟩ : ChunkOutcome).finalStart →
      ∀ p, p < min (⟨5, fun _ => 'a'⟩ : PyStr).len 1000000 →
        isPyWs ((⟨5, fun _ => 'a'⟩ : PyStr).chr p) = true ∨
        coveredBy (⟨[⟨0, 3, 0, 3⟩, ⟨2, 5, 2, 5⟩, ⟨4, 7, 4, 5⟩], [], 6, false,
          false, false⟩ : ChunkOutcome).recs p) ∧
    ((⟨[⟨0, 3, 0, 3⟩, ⟨2, 5, 2, 5⟩, ⟨4, 7, 4, 5⟩], [], 6, false, false,
        false⟩ : ChunkOutcome).finalStart <
      min (⟨5, fun _ => 'a'⟩ : PyStr).len 1000000 →
      (⟨[⟨0, 3, 0, 3⟩, ⟨2, 5, 2, 5⟩, ⟨4, 7, 4, 5⟩], [], 6, false, false,
        false⟩ : ChunkOutcome).capWarn = true) :=
  create_overlapping_chunks_cap_coverage_warning ⟨5, fun _ => 'a'⟩ 3 1 5 20
    ⟨[⟨0, 3, 0, 3⟩, ⟨2, 5, 2, 5⟩, ⟨4, 7, 4, 5⟩], [], 6, false, false, false⟩
    (by omega) (by omega) (by decide)

/-! ## Claim C8 -/

theorem not_space_of_no_ws (c : Char) (h : isPyWs c = false) :
    (c == ' ') = false := by
  cases hc : c == ' ' with
  | false => rfl
  | true =>
    have : isPyWs c = true := by simp [isPyWs, hc]
    rw [h] at this
    exact absurd this (by simp)

theorem rfindSpace_none_of_no_ws (t : PyStr) (s e : Nat)
    (hws : ∀ p, p < t.len → isPyWs (t.chr p) = false) :
    rfindSpace t s e = none := by
  apply scanDown_eq_none_of
  intro j h1 h2
  exact not_space_of_no_ws _ (hws j (by omega))

theorem rfindPeriodSpace_none_of_no_ws (t : PyStr) (s e : Nat)
    (hws : ∀ p, p < t.len → isPyWs (t.chr p) = false) :
    rfindPeriodSpace t s e = none := by
  apply scanDown_eq_none_of
  intro j h1 h2
  rw [not_space_of_no_ws _ (hws (j + 1) (by omega))]
  simp

theorem chunkEnd_no_ws (t : PyStr) (cs s : Nat)
    (hws : ∀ p, p < t.len → isPyWs (t.chr p) = false) :
    chunkEnd t cs s = s + cs := by
  unfold chunkEnd
  split
  · rw [snapEnd, rfindPeriodSpace_none_of_no_ws t s (s + cs) hws,
      snapSpace, rfindSpace_none_of_no_ws t s (s + cs) hws]
  · rfl

theorem firstNonWs_some_of_no_ws (t : PyStr) (lo hi : Nat)
    (hws : ∀ p, p < t.len → isPyWs (t.chr p) = false)
    (h1 : lo < hi) (h2 : hi ≤ t.len) :
    firstNonWs t lo hi = some lo := by
  unfold firstNonWs
  obtain ⟨k, hk⟩ : ∃ k, hi - lo = k + 1 := ⟨hi - lo - 1, by omega⟩
  rw [hk]
  exact scanUp_bot _ _ _ (by simp [hws lo (by omega)])

theorem lastNonWs_some_of_no_ws (t : PyStr) (lo hi : Nat)
    (hws : ∀ p, p < t.len → isPyWs (t.chr p) = false)
    (h1 : lo < hi) (h2 : hi ≤ t.len) :
    lastNonWs t lo hi = some (hi - 1) := by
  unfold lastNonWs
  obtain ⟨k, hk⟩ : ∃ k, hi - lo = k + 1 := ⟨hi - lo - 1, by omega⟩
  rw [hk]
  have : lo + k = hi - 1 := by omega
  rw [show scanDown (fun p => !isPyWs (t.chr p)) lo (k + 1)
      = if (!isPyWs (t.chr (lo + k))) = true then some (lo + k)
        else scanDown (fun p => !isPyWs (t.chr p)) lo k from rfl,
    if_pos (by simp [hws (lo + k) (by omega)]), this]

theorem chunkStep_no_ws (t : PyStr) (cs ov : Nat) (st : CState)
    (hws : ∀ p, p < t.len → isPyWs (t.chr p) = false)
    (hs : st.start < t.len) (hcs : 1 ≤ cs) :
    chunkStep t cs ov st
      = ⟨st.start + cs - ov,
         st.recs ++ [⟨st.start, st.start + cs, st.start,
           min (st.start + cs) t.len⟩], st.skips⟩ := by
  have hend := chunkEnd_no_ws t cs st.start hws
  have hlt : st.start < min (st.start + cs) t.len := by omega
  have hle : min (st.start + cs) t.len ≤ t.len := by omega
  unfold chunkStep
  rw [hend]
  dsimp only
  rw [firstNonWs_some_of_no_ws t _ _ hws hlt hle,
    lastNonWs_some_of_no_ws t _ _ hws hlt hle]
  dsimp only
  have h3 : min (st.start + cs) t.len - 1 + 1 = min (st.start + cs) t.len := by
    omega
  rw [h3]

theorem chunkLoop_step_eq (t : PyStr) (cs ov maxC fuel : Nat) (st : CState)
    (h : st.start < t.len ∧ st.recs.length < maxC) :
    chunkLoop t cs ov maxC (fuel + 1) st
      = chunkLoop t cs ov maxC fuel (chunkStep t cs ov st) := by
  rw [chunkLoop, if_pos h]

theorem chunkLoop_stop (t : PyStr) (cs ov maxC fuel : Nat) (st : CState)
    (h : ¬ (st.start < t.len ∧ st.recs.length < maxC)) :
    chunkLoop t cs ov maxC (fuel + 1) st = some st := by
  rw [chunkLoop, if_neg h]

/-- Claim C8 (amended, part 1): for any 10,000-character transcript with no
whitespace characters, chunking at `chunk_size=4000, overlap=800,
max_chunks=50` yields exactly four chunks (source ranges
`[0,4000), [3200,7200), [6400,10400), [9600,13600)`, the slices clamped to
the text), each stripped chunk at most 4000 characters long, and the last
chunk's effective source range ends at position 10,000. -/
theorem create_overlapping_chunks_10000_no_whitespace (t : PyStr)
    (hlen : t.len = 10000)
    (hws : ∀ p, p < t.len → isPyWs (t.chr p) = false) :
    create_overlapping_chunks t 4000 800 50 60
      = some ⟨[⟨0, 4000, 0, 4000⟩, ⟨3200, 7200, 3200, 7200⟩,
               ⟨6400, 10400, 6400, 10000⟩, ⟨9600, 13600, 9600, 10000⟩],
              [], 12800, false, false, false⟩ ∧
    (∀ r ∈ [(⟨0, 4000, 0, 4000⟩ : ChunkRec), ⟨3200, 7200, 3200, 7200⟩,
            ⟨6400, 10400, 6400, 10000⟩, ⟨9600, 13600, 9600, 10000⟩],
       r.se - r.ss ≤ 4000) ∧
    min (⟨9600, 13600, 9600, 10000⟩ : ChunkRec).re 10000 = 10000 ∧
    (⟨9600, 13600, 9600, 10000⟩ : ChunkRec).se = 10000 := by
  refine ⟨?_, by decide, by decide, by decide⟩
  have hT : (⟨min t.len 1000000, t.chr⟩ : PyStr) = ⟨10000, t.chr⟩ := by
    rw [hlen]
    norm_num
  have hwsT : ∀ p, p < (⟨10000, t.chr⟩ : PyStr).len →
      isPyWs ((⟨10000, t.chr⟩ : PyStr).chr p) = false := by
    intro p hp
    exact hws p (by rw [hlen]; exact hp)
  unfold create_overlapping_chunks
  rw [if_neg (by omega)]
  dsimp only
  rw [hT, hlen]
  norm_num
  rw [show (60 : Nat) = 59 + 1 from rfl,
    chunkLoop_step_eq _ _ _ _ _ _ (by exact ⟨by norm_num, by norm_num⟩),
    chunkStep_no_ws _ _ _ _ hwsT (by norm_num) (by norm_num)]
  norm_num
  rw [show (59 : Nat) = 58 + 1 from rfl,
    chunkLoop_step_eq _ _ _ _ _ _ (by exact ⟨by norm_num, by norm_num⟩),
    chunkStep_no_ws _ _ _ _ hwsT (by norm_num) (by norm_num)]
  norm_num
  rw [show (58 : Nat) = 57 + 1 from rfl,
    chunkLoop_step_eq _ _ _ _ _ _ (by exact ⟨by norm_num, by norm_num⟩),
    chunkStep_no_ws _ _ _ _ hwsT (by norm_num) (by norm_num)]
  norm_num
  rw [show (57 : Nat) = 56 + 1 from rfl,
    chunkLoop_step_eq _ _ _ _ _ _ (by exact ⟨by norm_num, by norm_num⟩),
    chunkStep_no_ws _ _ _ _ hwsT (by norm_num) (by norm_num)]
  norm_num
  rw [show (56 : Nat) = 55 + 1 from rfl,
    chunkLoop_stop _ _ _ _ _ _ (by norm_num)]
  exact ⟨_, rfl, rfl, rfl, rfl, fun h => absurd h (by norm_num)⟩

/-- Witness for `create_overlapping_chunks_10000_no_whitespace`. -/
theorem create_overlapping_chunks_10000_no_whitespace_witness :
    create_overlapping_chunks ⟨10000, fun _ => 'a'⟩ 4000 800 50 60
      = some ⟨[⟨0, 4000, 0, 4000⟩, ⟨3200, 7200, 3200, 7200⟩,
               ⟨6400, 10400, 6400, 10000⟩, ⟨9600, 13600, 9600, 10000⟩],
              [], 12800, false, false, false⟩ ∧
    (∀ r ∈ [(⟨0, 4000, 0, 4000⟩ : ChunkRec), ⟨3200, 7200, 3200, 7200⟩,
            ⟨6400, 10400, 6400, 10000⟩, ⟨9600, 13600, 9600, 10000⟩],
       r.se - r.ss ≤ 4000) ∧
    min (⟨9600, 13600, 9600, 10000⟩ : ChunkRec).re 10000 = 10000 ∧
    (⟨9600, 13600, 9600, 10000⟩ : ChunkRec).se = 10000 :=
  create_overlapping_chunks_10000_no_whitespace ⟨10000, fun _ => 'a'⟩ rfl
    (fun _ _ => rfl)

theorem wsTailText_pp_none (s e : Nat) :
    rfindPeriodSpace wsTailText s e = none := by
  apply scanDown_eq_none_of
  intro j _ _
  have h : (wsTailText.chr j == '.') = false := by
    show ((if j < 3000 then 'a' else ' ') == '.') = false
    split <;> rfl
  show (wsTailText.chr j == '.' && wsTailText.chr (j + 1) == ' ') = false
  rw [h]
  rfl

theorem wsTailText_nw_false (j : Nat) (h : 3000 ≤ j) :
    (!isPyWs (wsTailText.chr j)) = false := by
  show (!isPyWs (if j < 3000 then 'a' else ' ')) = false
  rw [if_neg (by omega)]
  rfl

theorem wsTailText_nw_true (j : Nat) (h : j < 3000) :
    (!isPyWs (wsTailText.chr j)) = true := by
  show (!isPyWs (if j < 3000 then 'a' else ' ')) = true
  rw [if_pos h]
  rfl

theorem wsTailText_sp_true (j : Nat) (h : 3000 ≤ j) :
    (wsTailText.chr j == ' ') = true := by
  show ((if j < 3000 then 'a' else ' ') == ' ') = true
  rw [if_neg (by omega)]
  rfl

theorem wsTailText_step1 :
    chunkStep wsTailText 4000 800 ⟨0, [], []⟩
      = ⟨3199, [⟨0, 3999, 0, 3000⟩], []⟩ := by
  have hsp : rfindSpace wsTailText 0 (0 + 4000) = some 3999 := by
    unfold rfindSpace
    rw [show min (0 + 4000) wsTailText.len - 0 = 3999 + 1 from rfl]
    exact scanDown_top _ _ _ (wsTailText_sp_true (0 + 3999) (by norm_num))
  have he : chunkEnd wsTailText 4000 0 = 3999 := by
    unfold chunkEnd
    rw [if_pos (by decide)]
    unfold snapEnd
    rw [wsTailText_pp_none]
    unfold snapSpace
    rw [hsp]
    dsimp only
    rw [if_pos (by norm_num)]
  unfold chunkStep
  rw [he]
  dsimp only
  have hf : firstNonWs wsTailText 0 (min 3999 wsTailText.len) = some 0 := by
    unfold firstNonWs
    rw [show min 3999 wsTailText.len - 0 = 3998 + 1 from rfl]
    exact scanUp_bot _ _ _ (wsTailText_nw_true 0 (by norm_num))
  have hl : lastNonWs wsTailText 0 (min 3999 wsTailText.len) = some 2999 := by
    unfold lastNonWs
    rw [show min 3999 wsTailText.len - 0 = 3999 from rfl]
    rw [scanDown_drop_top _ 0 3999 3000 (by norm_num)
      (fun j h1 h2 => wsTailText_nw_false j (by omega))]
    rw [show (3000 : Nat) = 2999 + 1 from rfl]
    exact scanDown_top _ _ _ (wsTailText_nw_true (0 + 2999) (by norm_num))
  rw [hf, hl]
  rfl

theorem wsTailText_step2 :
    chunkStep wsTailText 4000 800 ⟨3199, [⟨0, 3999, 0, 3000⟩], []⟩
      = ⟨6398, [⟨0, 3999, 0, 3000⟩], [(3199, 7198)]⟩ := by
  have hsp : rfindSpace wsTailText 3199 (3199 + 4000) = some 7198 := by
    unfold rfindSpace
    rw [show min (3199 + 4000) wsTailText.len - 3199 = 3999 + 1 from rfl]
    exact scanDown_top _ _ _ (wsTailText_sp_true (3199 + 3999) (by norm_num))
  have he : chunkEnd wsTailText 4000 3199 = 7198 := by
    unfold chunkEnd
    rw [if_pos (by decide)]
    unfold snapEnd
    rw [wsTailText_pp_none]
    unfold snapSpace
    rw [hsp]
    dsimp only
    rw [if_pos (by norm_num)]
  unfold chunkStep
  rw [he]
  dsimp only
  have hf : firstNonWs wsTailText 3199 (min 7198 wsTailText.len) = none := by
    unfold firstNonWs
    apply scanUp_eq_none_of
    intro j h1 h2
    exact wsTailText_nw_false j (by omega)
  rw [hf]
  rfl

theorem wsTailText_step3 :
    chunkStep wsTailText 4000 800 ⟨6398, [⟨0, 3999, 0, 3000⟩], [(3199, 7198)]⟩
      = ⟨9598, [⟨0, 3999, 0, 3000⟩], [(3199, 7198), (6398, 10398)]⟩ := by
  have he : chunkEnd wsTailText 4000 6398 = 10398 := by
    unfold chunkEnd
    rw [if_neg (by decide)]
  unfold chunkStep
  rw [he]
  dsimp only
  have hf : firstNonWs wsTailText 6398 (min 10398 wsTailText.len) = none := by
    unfold firstNonWs
    apply scanUp_eq_none_of
    intro j h1 h2
    exact wsTailText_nw_false j (by omega)
  rw [hf]
  rfl

theorem wsTailText_step4 :
    chunkStep wsTailText 4000 800
        ⟨9598, [⟨0, 3999, 0, 3000⟩], [(3199, 7198), (6398, 10398)]⟩
      = ⟨12798, [⟨0, 3999, 0, 3000⟩],
          [(3199, 7198), (6398, 10398), (9598, 13598)]⟩ := by
  have he : chunkEnd wsTailText 4000 9598 = 13598 := by
    unfold chunkEnd
    rw [if_neg (by decide)]
  unfold chunkStep
  rw [he]
  dsimp only
  have hf : firstNonWs wsTailText 9598 (min 13598 wsTailText.len) = none := by
    unfold firstNonWs
    apply scanUp_eq_none_of
    intro j h1 h2
    exact wsTailText_nw_false j (by omega)
  rw [hf]
  rfl

/-- Claim C8 (counterexample): for the 10,000-character transcript
`wsTailText` (3000 non-whitespace characters then 7000 spaces) and
`chunk_size=4000, overlap=800, max_chunks=50`, the single produced chunk's
source range `[0, 3999)` (its stripped text ending at 3000) ends nowhere
near position 10,000: the whole trailing whitespace region is dropped
(positions such as 5000 are in no chunk), so the last chunk does not extend
to the end of the input. -/
theorem create_overlapping_chunks_ws_tail_short :
    create_overlapping_chunks wsTailText 4000 800 50 60
      = some ⟨[⟨0, 3999, 0, 3000⟩],
          [(3199, 7198), (6398, 10398), (9598, 13598)],
          12798, false, false, false⟩ ∧
    ((⟨0, 3999, 0, 3000⟩ : ChunkRec).re = 3999 ∧ (3999 : Nat) ≠ 10000) ∧
    ¬ coveredBy [⟨0, 3999, 0, 3000⟩] 5000 := by
  refine ⟨?_, ⟨rfl, by norm_num⟩, ?_⟩
  · unfold create_overlapping_chunks
    rw [if_neg (by decide)]
    dsimp only
    rw [show (⟨min wsTailText.len 1000000, wsTailText.chr⟩ : PyStr)
        = wsTailText from rfl]
    rw [if_neg (by decide), if_neg (by decide)]
    rw [show (60 : Nat) = 59 + 1 from rfl,
      chunkLoop_step_eq _ _ _ _ _ _ ⟨by decide, by decide⟩,
      wsTailText_step1,
      show (59 : Nat) = 58 + 1 from rfl,
      chunkLoop_step_eq _ _ _ _ _ _ ⟨by decide, by decide⟩,
      wsTailText_step2,
      show (58 : Nat) = 57 + 1 from rfl,
      chunkLoop_step_eq _ _ _ _ _ _ ⟨by decide, by decide⟩,
      wsTailText_step3,
      show (57 : Nat) = 56 + 1 from rfl,
      chunkLoop_step_eq _ _ _ _ _ _ ⟨by decide, by decide⟩,
      wsTailText_step4,
      show (56 : Nat) = 55 + 1 from rfl,
      chunkLoop_stop _ _ _ _ _ _ (by decide)]
    rfl
  · rintro ⟨r, hr, h1, h2⟩
    simp only [List.mem_singleton] at hr
    subst hr
    exact absurd h2 (by norm_num)

/-! ## Claim C5 -/

theorem lookupT_map_replace (k key : Str) (v : Template) (acc : TDict) :
    (lookupT (acc.map fun p => if p.1 == key then (p.1, v) else p) k).isSome
      = (lookupT acc k).isSome := by
  induction acc with
  | nil => rfl
  | cons q rest ih =>
    have h1 : (if q.1 == key then (q.1, v) else q).1 = q.1 := by
      split <;> rfl
    simp only [List.map_cons, lookupT, h1]
    by_cases hq : (q.1 == k) = true
    · rw [if_pos hq, if_pos hq]
      rfl
    · rw [if_neg hq, if_neg hq]
      exact ih

theorem lookupT_append_isSome (k : Str) (kv : Str × Template) (acc : TDict)
    (h : (lookupT acc k).isSome = true) :
    (lookupT (acc ++ [kv]) k).isSome = true := by
  induction acc with
  | nil => simp [lookupT] at h
  | cons q rest ih =>
    simp only [List.cons_append, lookupT] at h ⊢
    by_cases hq : q.1 == k
    · simp [hq]
    · simp only [Bool.not_eq_true] at hq
      simp only [hq, Bool.false_eq_true, if_false] at h ⊢
      exact ih h

theorem lookupT_dictUpdate_isSome (k : Str) (u : TDict) :
    ∀ d : TDict, (lookupT d k).isSome = true →
      (lookupT (dictUpdate d u) k).isSome = true := by
  induction u with
  | nil => intro d h; exact h
  | cons kv rest ih =>
    intro d h
    rw [dictUpdate, List.foldl_cons]
    apply ih
    by_cases hc : containsKey d kv.1
    · simp only [hc, if_pos, ite_true]
      rw [lookupT_map_replace]
      exact h
    · simp only [hc, Bool.false_eq_true, if_false, ite_false]
      exact lookupT_append_isSome k kv d h

theorem load_summary_templates_default_isSome (main hybrid : TDict) :
    (lookupT (load_summary_templates main hybrid) (S "default")).isSome
      = true := by
  unfold load_summary_templates
  apply lookupT_dictUpdate_isSome
  apply lookupT_dictUpdate_isSome
  rfl

/-- Claim C5: for every genre, content type, transcript sample and title —
including all empty or `None` — `get_summary_template` on the loaded
template dict (whatever the two YAML files contained) returns a template:
never Python `None`, and never the `KeyError` that a missing `default` key
would raise, because `load_summary_templates` always installs the built-in
`default` template. -/
theorem get_summary_template_total (main hybrid : TDict)
    (genreO ctO transcript title : Option Str) :
    ∃ t, get_summary_template genreO ctO (load_summary_templates main hybrid)
      transcript title = .ok (some t) := by
  have hdef := load_summary_templates_default_isSome main hybrid
  obtain ⟨d, hd⟩ := Option.isSome_iff_exists.mp hdef
  unfold get_summary_template
  cases h1 : (if truthyS transcript || truthyS title then
      detect_template_from_content (load_summary_templates main hybrid)
        transcript title genreO
    else none) with
  | some t => exact ⟨t, rfl⟩
  | none =>
    cases h2 : lookupT (load_summary_templates main hybrid)
        (normLower genreO) with
    | some t => exact ⟨t, rfl⟩
    | none =>
      cases h3 : genre_mapping.find? fun p =>
          p.2.any fun kw => containsSub (normLower genreO) kw with
      | some p =>
        rw [hd]
        exact ⟨_, rfl⟩
      | none =>
        cases h4 : ctTier (load_summary_templates main hybrid)
            (normLower ctO) content_type_mapping with
        | some t => exact ⟨t, rfl⟩
        | none =>
          rw [hd]
          exact ⟨d, rfl⟩

/-! ## Claim C6 -/

theorem pickBest_go (step : Str × Nat → Str × Nat → Str × Nat)
    (hstep : step = fun cur y => if cur.2 < y.2 then y else cur) :
    ∀ (xs : List (Str × Nat)) (cur : Str × Nat),
      (xs.foldl step cur = cur ∨ xs.foldl step cur ∈ xs) ∧
      cur.2 ≤ (xs.foldl step cur).2 ∧
      ∀ p ∈ xs, p.2 ≤ (xs.foldl step cur).2 := by
  intro xs
  induction xs with
  | nil => intro cur; exact ⟨Or.inl rfl, Nat.le_refl _, by simp⟩
  | cons y ys ih =>
    intro cur
    rw [List.foldl_cons]
    obtain ⟨hmem, hcur, hall⟩ := ih (step cur y)
    have hy : step cur y = y ∨ step cur y = cur := by
      rw [hstep]
      dsimp only
      split
      · exact Or.inl rfl
      · exact Or.inr rfl
    have hcur_le : cur.2 ≤ (step cur y).2 := by
      rw [hstep]
      dsimp only
      split
      · omega
      · exact Nat.le_refl _
    have hy_le : y.2 ≤ (step cur y).2 := by
      rw [hstep]
      dsimp only
      split
      · exact Nat.le_refl _
      · omega
    refine ⟨?_, Nat.le_trans hcur_le hcur, ?_⟩
    · rcases hmem with h | h
      · rcases hy with h2 | h2
        · exact Or.inr (by rw [h, h2]; exact List.mem_cons_self _ _)
        · exact Or.inl (by rw [h, h2])
      · exact Or.inr (List.mem_cons_of_mem _ h)
    · intro p hp
      rcases List.mem_cons.mp hp with h | h
      · subst h
        exact Nat.le_trans hy_le hcur
      · exact hall p h

theorem pickBest_spec (l : List (Str × Nat)) (best : Str × Nat)
    (h : pickBest l = some best) :
    best ∈ l ∧ ∀ p ∈ l, p.2 ≤ best.2 := by
  cases l with
  | nil => simp [pickBest] at h
  | cons x xs =>
    obtain rfl : xs.foldl (fun cur y => if cur.2 < y.2 then y else cur) x
        = best := by simpa [pickBest] using h
    obtain ⟨hmem, hcur, hall⟩ := pickBest_go _ rfl xs x
    refine ⟨?_, ?_⟩
    · rcases hmem with h | h
      · rw [h]; exact List.mem_cons_self _ _
      · exact List.mem_cons_of_mem _ h
    · intro p hp
      rcases List.mem_cons.mp hp with h | h
      · subst h; exact hcur
      · exact hall p h

theorem foldl_add_eq_sum (f : Str → Nat) :
    ∀ (kws : List Str) (acc : Nat),
      kws.foldl (fun a kw => a + f kw) acc = acc + (kws.map f).sum := by
  intro kws
  induction kws with
  | nil => intro acc; simp
  | cons k ks ih =>
    intro acc
    rw [List.foldl_cons, ih, List.map_cons, List.sum_cons]
    omega

/-- Claim C6: content-based template detection (1) selects a
highest-scoring template and accepts it exactly when its score reaches the
threshold 3, deferring to the fallback tiers otherwise, and (2) a scored
template whose (lowered) name contains the (lowered, truthy) classified
genre as a substring receives exactly a +5 bonus on top of its keyword and
hybrid scores. -/
theorem detect_template_threshold_and_genre_bonus :
    (∀ (templates : TDict) (transcript title genreO : Option Str)
        (best : Str × Nat),
      templates.isEmpty = false →
      (truthyS transcript = true ∨ truthyS title = true) →
      pickBest (templateScores templates transcript title genreO)
        = some best →
      ((3 ≤ best.2 ∧
          detect_template_from_content templates transcript title genreO
            = lookupT templates best.1) ∨
       (best.2 < 3 ∧
          detect_template_from_content templates transcript title genreO
            = none)) ∧
      best ∈ templateScores templates transcript title genreO ∧
      ∀ p ∈ templateScores templates transcript title genreO,
        p.2 ≤ best.2) ∧
    (∀ (analysis : Str) (titleLower genreO : Option Str) (name : Str)
        (kws : List Str),
      templateScore analysis titleLower genreO name kws
        = (kws.map (keywordScore analysis titleLower)).sum
          + hybridBonus analysis genreO name kws
          + (if truthyS genreO &&
              containsSub (lowerS name) (lowerS (genreO.getD [])) then 5
            else 0)) := by
  constructor
  · intro templates transcript title genreO best hne htr hbest
    have hguard : (templates.isEmpty
        || (!truthyS transcript && !truthyS title)) = false := by
      rcases htr with h | h <;> simp [hne, h]
    have hd : detect_template_from_content templates transcript title genreO
        = if 3 ≤ best.2 then lookupT templates best.1 else none := by
      unfold detect_template_from_content
      rw [hguard]
      simp only [Bool.false_eq_true, if_false, hbest]
    obtain ⟨hmem, hall⟩ := pickBest_spec _ _ hbest
    refine ⟨?_, hmem, hall⟩
    by_cases h3 : 3 ≤ best.2
    · exact Or.inl ⟨h3, by rw [hd, if_pos h3]⟩
    · exact Or.inr ⟨by omega, by rw [hd, if_neg h3]⟩
  · intro analysis titleLower genreO name kws
    unfold templateScore genreBonus
    rw [foldl_add_eq_sum]
    omega

/-- Witness for `detect_template_threshold_and_genre_bonus` (first part) at
a one-template dict whose name contains the detected genre. -/
theorem detect_template_threshold_witness :
    ((3 ≤ ((S "educational", 6) : Str × Nat).2 ∧
        detect_template_from_content
          [(S "educational",
            { intro := S "i", sections := [], tone := S "t", emoji := S "e",
              keywords := some [S "video"] })]
          (some (S "a video about math")) none (some (S "edu"))
          = lookupT
              [(S "educational",
                { intro := S "i", sections := [], tone := S "t",
                  emoji := S "e", keywords := some [S "video"] })]
              (S "educational")) ∨
     (((S "educational", 6) : Str × Nat).2 < 3 ∧
        detect_template_from_content
          [(S "educational",
            { intro := S "i", sections := [], tone := S "t", emoji := S "e",
              keywords := some [S "video"] })]
          (some (S "a video about math")) none (some (S "edu"))
          = none)) ∧
    (S "educational", 6) ∈ templateScores
      [(S "educational",
        { intro := S "i", sections := [], tone := S "t", emoji := S "e",
          keywords := some [S "video"] })]
      (some (S "a video about math")) none (some (S "edu")) ∧
    ∀ p ∈ templateScores
        [(S "educational",
          { intro := S "i", sections := [], tone := S "t", emoji := S "e",
            keywords := some [S "video"] })]
        (some (S "a video about math")) none (some (S "edu")),
      p.2 ≤ ((S "educational", 6) : Str × Nat).2 :=
  detect_template_threshold_and_genre_bonus.1
    [(S "educational",
      { intro := S "i", sections := [], tone := S "t", emoji := S "e",
        keywords := some [S "video"] })]
    (some (S "a video about math")) none (some (S "edu"))
    (S "educational", 6) (by decide) (Or.inl (by decide)) (by decide)

/-! ## Claim C9 -/

/-- A duplicate-free list has exactly one occurrence of `k` when `k` is a
member: filtering by a predicate deciding equality with `k` yields a
singleton (or nothing when `k` is absent). -/
theorem nodup_filter_key_length_aux {α : Type} [DecidableEq α]
    (l : List α) (k : α) (h : l.Nodup) :
    (l.filter fun a => decide (a = k)).length = if k ∈ l then 1 else 0 := by
  induction l with
  | nil => simp
  | cons x xs ih =>
    rcases List.nodup_cons.mp h with ⟨hx, hxs⟩
    by_cases hxk : x = k
    · subst hxk
      simp [List.filter_cons, ih hxs, hx]
    · simp [List.filter_cons, hxk, ih hxs, List.mem_cons, Ne.symm hxk]

/-- `nodup_filter_key_length_aux` for any Boolean predicate that decides
equality with `k` (whatever `Decidable` instance it was built from). -/
theorem nodup_filter_key_length {α : Type} [DecidableEq α]
    (l : List α) (k : α) (q : α → Bool) (hq : ∀ a, q a = true ↔ a = k)
    (h : l.Nodup) :
    (l.filter q).length = if k ∈ l then 1 else 0 := by
  have hfq : l.filter q = l.filter fun a => decide (a = k) :=
    List.filter_congr fun a _ => by
      by_cases hak : a = k
      · subst hak; simp [(hq a).mpr rfl]
      · have hf : q a = false :=
          Bool.eq_false_iff.mpr fun hc => hak ((hq a).mp hc)
        simp [hak, hf]
  rw [hfq]
  exact nodup_filter_key_length_aux l k h

/-- A duplicate-free priority list covered by a duplicate-free key list,
followed by the keys not in the priority list, has exactly as many elements
as the key list. -/
theorem cover_length_aux {α : Type} [DecidableEq α] :
    ∀ (prio : List α), prio.Nodup → ∀ (ks : List α), ks.Nodup →
      (∀ a ∈ prio, a ∈ ks) →
      (prio ++ ks.filter fun a => decide (a ∉ prio)).length = ks.length := by
  intro prio
  induction prio with
  | nil => intro _ ks _ _; simp
  | cons p ps ih =>
    intro hnd ks hks hsub
    rcases List.nodup_cons.mp hnd with ⟨hp, hps⟩
    have hpks : p ∈ ks := hsub p (List.mem_cons_self _ _)
    have hfe : (ks.filter fun a => decide (a ∉ p :: ps))
        = (ks.erase p).filter fun a => decide (a ∉ ps) := by
      rw [hks.erase_eq_filter p, List.filter_filter]
      apply List.filter_congr
      intro a _
      by_cases hap : a = p
      · subst hap; simp
      · simp [hap, List.mem_cons]
    have hsub' : ∀ a ∈ ps, a ∈ ks.erase p := by
      intro a ha
      have hne : a ≠ p := fun he => hp (he ▸ ha)
      exact (List.mem_erase_of_ne hne).mpr (hsub a (List.mem_cons_of_mem _ ha))
    have hlen : 0 < ks.length := List.length_pos.mpr
      (fun he => by simp [he] at hpks)
    have hih := ih hps (ks.erase p) (hks.erase p) hsub'
    rw [List.length_append, List.length_erase_of_mem hpks] at hih
    rw [hfe]
    simp only [List.length_cons, List.length_append]
    omega

/-- `cover_length_aux` for any Boolean predicate that decides
non-membership in the priority list. -/
theorem cover_length {α : Type} [DecidableEq α] (prio ks : List α)
    (q : α → Bool) (hq : ∀ a, q a = true ↔ a ∉ prio)
    (h1 : prio.Nodup) (h2 : ks.Nodup) (h3 : ∀ a ∈ prio, a ∈ ks) :
    (prio ++ ks.filter q).length = ks.length := by
  have hfq : ks.filter q = ks.filter fun a => decide (a ∉ prio) :=
    List.filter_congr fun a _ => by
      by_cases hap : a ∈ prio
      · have hf : q a = false :=
          Bool.eq_false_iff.mpr fun hc => (hq a).mp hc hap
        simp [hap, hf]
      · simp [hap, (hq a).mpr hap]
  rw [hfq]
  exact cover_length_aux prio h1 ks h2 h3

/-- Claim C9: for a duplicate-free configured key set of size K and a
duplicate-free priority list drawn from it, the variant matrix produced by
`generate_summaries_incrementally` has exactly K entries; every configured
(difficulty, length) key owns exactly one entry — never missing; and each
entry's value is the generated summary when that variant's generation
succeeded, or the failure marker string when it failed — one variant's
failure leaves every other key's entry intact. -/
theorem generate_summaries_incrementally_complete
    (keySpace priority : List (String × String))
    (gen : String → String → Option String)
    (hks : keySpace.Nodup) (hp : priority.Nodup)
    (hsub : ∀ k ∈ priority, k ∈ keySpace) :
    (generate_summaries_incrementally keySpace priority gen).length
      = keySpace.length ∧
    (∀ k ∈ keySpace,
      ((generate_summaries_incrementally keySpace priority gen).filter
          fun e => decide (e.1 = k)).length = 1) ∧
    (∀ e ∈ generate_summaries_incrementally keySpace priority gen,
      e.2 = (gen e.1.1 e.1.2).getD
        "Summary generation failed for this variant") := by
  have hpf : (priority.filter fun k => decide (k ∈ keySpace)) = priority :=
    List.filter_eq_self.mpr fun a ha => by simpa using hsub a ha
  refine ⟨?_, ?_, ?_⟩
  · unfold generate_summaries_incrementally
    rw [List.length_map, hpf]
    exact cover_length priority keySpace _ (fun a => by simp) hp hks hsub
  · intro k hk
    unfold generate_summaries_incrementally
    rw [hpf, List.filter_map, List.length_map]
    have hcomp : ((fun e : (String × String) × String => decide (e.1 = k)) ∘
        fun k' : String × String =>
          (k', (gen k'.1 k'.2).getD
            "Summary generation failed for this variant"))
        = fun a => decide (a = k) := rfl
    rw [hcomp, List.filter_append, List.length_append,
      nodup_filter_key_length priority k _ (fun a => by simp) hp,
      nodup_filter_key_length _ k _ (fun a => by simp) (hks.filter _)]
    have hmem : k ∈ (keySpace.filter fun a => decide (a ∉ priority))
        ↔ (k ∈ keySpace ∧ k ∉ priority) := by
      simp [List.mem_filter]
    by_cases hkp : k ∈ priority
    · rw [if_pos hkp, if_neg (fun hc => (hmem.mp hc).2 hkp)]
    · rw [if_neg hkp, if_pos (hmem.mpr ⟨hk, hkp⟩)]
  · intro e he
    unfold generate_summaries_incrementally at he
    rcases List.mem_map.mp he with ⟨a, _, rfl⟩
    rfl

/-- Witness for `generate_summaries_incrementally_complete` at a
two-key space with a one-key priority list whose variant fails. -/
theorem generate_summaries_incrementally_complete_witness :
    (generate_summaries_incrementally
        [("easy", "short"), ("hard", "long")] [("hard", "long")]
        fun d _ => if d = "hard" then none else some "ok").length
      = ([("easy", "short"), ("hard", "long")]
          : List (String × String)).length ∧
    (∀ k ∈ ([("easy", "short"), ("hard", "long")]
        : List (String × String)),
      ((generate_summaries_incrementally
          [("easy", "short"), ("hard", "long")] [("hard", "long")]
          fun d _ => if d = "hard" then none else some "ok").filter
          fun e => decide (e.1 = k)).length = 1) ∧
    (∀ e ∈ generate_summaries_incrementally
        [("easy", "short"), ("hard", "long")] [("hard", "long")]
        fun d _ => if d = "hard" then none else some "ok",
      e.2 = ((fun d _ => if d = "hard" then none else some "ok")
          e.1.1 e.1.2 : Option String).getD
        "Summary generation failed for this variant") :=
  generate_summaries_incrementally_complete
    [("easy", "short"), ("hard", "long")] [("hard", "long")]
    (fun d _ => if d = "hard" then none else some "ok")
    (by decide) (by decide) (by decide)

end VideoApp
